import Mathlib

/-!
# MultiRW: the concurrent I/O engine of `multirw.c` and the argument parser of `args.c`

A shallow embedding of the C sources.  Machine integers are naturals and integers with
explicit reductions modulo `2 ^ 32` and `2 ^ 64` (an LP64 platform: `int` has 32 bits,
`size_t`, `ssize_t`, `off_t` and `time_t` have 64).  What the operating system and libc
answer (`rand_r`, `open`, `ftruncate`, `mmap`, `malloc`, `pthread_create`, `time`, `pread`,
`pwrite`, `atoi`, `atol`) is a parameter of the model.  A thread of control is a state
carrying the list of transfers it has issued so far and a status that records how the process
stopped, if it did: a function called in a stopped process does nothing.  The bytes held in
memory and in the file are not part of the model, but the extent of the mapping and of the
buffers is: a `memcpy` that leaves them is undefined.  Each worker is followed on its own.
The main thread is followed up to the end of the loop that creates the threads, with a
scheduler that may let a worker end the process at any step of that loop; the console output
is not part of the model.
-/

namespace MultiRW

/-! ## C integer conversions -/

/-- Conversion of an integer value to `uint32_t` (reduction modulo `2 ^ 32`). -/
def toU32 (x : Int) : Nat := (x % 4294967296).toNat

/-- Conversion of an integer value to `uint64_t` or `size_t` (reduction modulo `2 ^ 64`). -/
def toU64 (x : Int) : Nat := (x % 18446744073709551616).toNat

/-- Conversion of a 64-bit unsigned value to a signed 64-bit type (`off_t`, `ssize_t`):
values from `2 ^ 63` on become negative. -/
def toS64 (x : Nat) : Int :=
  if x % 18446744073709551616 < 9223372036854775808 then ((x % 18446744073709551616 : Nat) : Int)
  else ((x % 18446744073709551616 : Nat) : Int) - 18446744073709551616

/-- The C remainder operator on unsigned operands: undefined (`none`) for a zero divisor. -/
def c_rem (a b : Nat) : Option Nat := if b = 0 then none else some (a % b)

/-! ## args.h -/

/-- Enumerator `MRW_READ` of `io_type_t`. -/
def MRW_READ : Int := 0

/-- Enumerator `MRW_WRITE` of `io_type_t`. -/
def MRW_WRITE : Int := 1

/-- Enumerator `MRW_RW` of `io_type_t`. -/
def MRW_RW : Int := 2

/-- Macro `IO_SIZE_MAX` of args.h. -/
def IO_SIZE_MAX : Nat := 524288

/-- Macro `FILE_SIZE_DEFAULT` of args.h. -/
def FILE_SIZE_DEFAULT : Nat := 512 * 1024 * 1024 + 1

/-- Macro `NB_THREADS_DEFAULT` of args.h. -/
def NB_THREADS_DEFAULT : Nat := 10

/-- Macro `RUNTIME_SEC_DEFAULT` of args.h. -/
def RUNTIME_SEC_DEFAULT : Nat := 10

/-- Macro `IO_BURST_COUNT` of args.h. -/
def IO_BURST_COUNT : Nat := 64 * 1024

/-- The structure `mrw_args_t`.  `io_type` holds whatever integer `atoi` produced for `-p`,
so it is an integer and not only one of the three enumerators. -/
structure mrw_args_t where
  file_path : String
  file_size : Nat
  nb_threads : Nat
  is_mmap : Bool
  is_last_chunk : Bool
  is_multiple_fd : Bool
  is_cache_bypass : Bool
  io_type : Int
  runtime_s : Nat
  first_seed : Nat
  io_size_max : Nat
  io_burst_count : Nat
  verbosity_lvl : Nat
  deriving DecidableEq, Repr

/-- The fields of a configuration lie in the range of their C types (`uint64_t` for the file
size, `uint32_t` for the counters). -/
def mrw_args_t.InRange (a : mrw_args_t) : Prop :=
  a.file_size < 18446744073709551616 ∧ a.nb_threads < 4294967296 ∧ a.runtime_s < 4294967296 ∧
  a.first_seed < 4294967296 ∧ a.io_size_max < 4294967296 ∧ a.io_burst_count < 4294967296

instance (a : mrw_args_t) : Decidable a.InRange := by
  unfold mrw_args_t.InRange; infer_instance

/-! ## The generator -/

/-- The libc function `rand_r` as a map from a seed to the value drawn and the next seed. -/
abbrev Rng := Nat → Nat × Nat

/-- One call `rand_r(&seed)`: the value is an `int` in `[0, RAND_MAX]` with
`RAND_MAX = 2 ^ 31 - 1`, the seed an `unsigned int`. -/
def rand_r (g : Rng) (seed : Nat) : Nat × Nat :=
  ((g seed).1 % 2147483648, (g seed).2 % 4294967296)

/-- The seed after `n` successive calls of `rand_r`. -/
def skip (g : Rng) : Nat → Nat → Nat
  | 0, seed => seed
  | n + 1, seed => skip g n (rand_r g seed).2

/-! ## Transfers, diagnostics and process status -/

/-- Direction of a transfer. -/
inductive Op
  | read
  | write
  deriving DecidableEq, Repr

/-- One call of `mrw_read` or `mrw_write`: the direction, whether it takes the mapped path
(`memcpy` of `size` bytes on the mapping) or the positional system call, the descriptor, the
size and the offset (an `off_t`). -/
structure Transfer where
  op : Op
  mapped : Bool
  fd : Int
  size : Nat
  offset : Int
  deriving DecidableEq, Repr

/-- The triple `(mode, offset, size)` of a transfer. -/
def Transfer.triple (t : Transfer) : Op × Int × Nat := (t.op, t.offset, t.size)

/-- The byte index `b` lies in the range `[offset, offset + size)` of the transfer. -/
def Transfer.covers (t : Transfer) (b : Nat) : Prop :=
  t.offset ≤ (b : Int) ∧ (b : Int) < t.offset + (t.size : Int)

instance (t : Transfer) (b : Nat) : Decidable (t.covers b) := by
  unfold Transfer.covers; infer_instance

/-- What is printed on `stderr` before `exit(1)`. -/
inductive Diag
  | open_failed (path : String)
  | truncate_failed (path : String)
  | mmap_failed
  | usage
  | read_error (fd : Int) (offset : Int) (size : Nat) (ret : Int)
  | write_error (fd : Int) (offset : Int) (size : Nat) (ret : Int)
  deriving DecidableEq, Repr

/-- How far the process got: still running, stopped by `exit(code)` after a diagnostic,
stopped by an integer remainder by zero, by the overflow of an `int` loop counter, by a
memory access outside the object addressed (undefined behaviour, on Linux `SIGSEGV` or
`SIGBUS` when the pages are not mapped), by a failed `assert`, or the thread ended with `pthread_exit`. -/
inductive Status
  | running
  | exited (code : Nat) (msg : Diag)
  | rem_by_zero
  | int_overflow
  | bad_access
  | aborted
  | finished
  deriving DecidableEq, Repr

/-- The status is one that ends the whole process: `exit`, a signal or undefined behaviour.
A thread that ends with `pthread_exit` leaves the process running. -/
def Status.ends_process : Status → Bool
  | Status.running => false
  | Status.finished => false
  | _ => true

/-- The structure `thread_args_t` (buffers and mapping are addresses). -/
structure thread_args_t where
  thread_id : Nat
  seed : Nat
  fd : Int
  read_buf : Int
  write_buf : Int
  fd_mmap : Int
  deriving DecidableEq, Repr

/-- One thread of control: its `thread_args_t`, the number of positional system calls made so
far, the transfers issued so far in order, and the status. -/
structure Proc where
  targs : thread_args_t
  nsys : Nat
  trace : List Transfer
  status : Status
  deriving DecidableEq, Repr

/-- The answers of the operating system, of libc and of the scheduler to one thread of
control. -/
structure Env where
  /-- Result of the `k`-th positional system call (`pread` or `pwrite`) for the request made. -/
  sysret : Nat → Transfer → Int
  /-- Result of the `k`-th call `time(NULL)`. -/
  clock : Nat → Int
  /-- Result of `open` for the flags passed. -/
  sys_open : Nat → Int
  /-- Result of `mmap`: the address of the mapping, or `none` for `MAP_FAILED`. -/
  sys_mmap : Option Int
  /-- Result of `ftruncate` for a descriptor and a length (an `off_t`). -/
  sys_ftruncate : Int → Int → Int
  /-- Result of the first and second `malloc` of a worker (`0` is `NULL`). -/
  malloc_write : Int
  malloc_read : Int
  /-- Result of the `malloc` of the thread arguments in `main` (`0` is `NULL`). -/
  malloc_targs : Int
  /-- Result of the `pthread_create` call for a thread identifier (`0` is success). -/
  sys_pthread_create : Nat → Int
  /-- The scheduler: the status with which a worker has ended the whole process by the time
  `main` has made the `pthread_create` call for a thread identifier, if one has.  Any answer
  is allowed, so that what holds for every environment holds for every interleaving. -/
  worker_ended : Nat → Option Status

/-! ## multirw.c: opening the file -/

/-- Flag `O_RDONLY` of fcntl.h (Linux). -/
def O_RDONLY : Nat := 0

/-- Flag `O_WRONLY` of fcntl.h (Linux). -/
def O_WRONLY : Nat := 1

/-- Flag `O_RDWR` of fcntl.h (Linux). -/
def O_RDWR : Nat := 2

/-- Flag `O_CREAT` of fcntl.h (Linux). -/
def O_CREAT : Nat := 64

/-- Flag `O_DIRECT` of fcntl.h (Linux, x86-64). -/
def O_DIRECT : Nat := 16384

/-- Result of a function that either returns a value or ends the process with `exit`. -/
inductive Ret (α : Type)
  | ret (a : α)
  | exit (code : Nat) (msg : Diag)
  deriving DecidableEq, Repr

/-- What a call of an open function did: the flags of the `open` call it made, if it made
one, and how it ended. -/
structure OpenRun where
  called : Option Nat
  out : Ret Int
  deriving DecidableEq, Repr

/-- The function `mrw_file_open_internal`: `sys_open` is what `open` answers for the flags. -/
def mrw_file_open_internal (g_args : mrw_args_t) (sys_open : Nat → Int) (arg_flag : Nat) :
    OpenRun :=
  let flags := arg_flag ||| O_CREAT
  let flags := if g_args.is_cache_bypass then flags ||| O_DIRECT else flags
  let fd := sys_open flags
  if fd ≤ 0 then
    { called := some flags, out := Ret.exit 1 (Diag.open_failed g_args.file_path) }
  else
    { called := some flags, out := Ret.ret fd }

/-- The function `mrw_file_open`: a switch on the I/O type, `-1` in the default case. -/
def mrw_file_open (g_args : mrw_args_t) (sys_open : Nat → Int) : OpenRun :=
  if g_args.io_type = MRW_READ then mrw_file_open_internal g_args sys_open O_RDONLY
  else if g_args.io_type = MRW_WRITE then mrw_file_open_internal g_args sys_open O_WRONLY
  else if g_args.io_type = MRW_RW then mrw_file_open_internal g_args sys_open O_RDWR
  else { called := none, out := Ret.ret (-1) }

/-! ## multirw.c: one transfer -/

/-- The state with a new generator seed. -/
def Proc.setSeed (p : Proc) (s : Nat) : Proc :=
  { p with targs := { p.targs with seed := s } }

/-- The state with a new status. -/
def Proc.stop (p : Proc) (s : Status) : Proc := { p with status := s }

/-- An object in the memory of the process: the address of its first byte and its length in
bytes. -/
structure Region where
  base : Int
  len : Nat
  deriving DecidableEq, Repr

/-- The `n` bytes from the address `addr` on lie inside the object.  A range of no byte
accesses nothing. -/
def Region.holds (r : Region) (addr : Int) (n : Nat) : Prop :=
  n = 0 ∨ (r.base ≤ addr ∧ addr + (n : Int) ≤ r.base + (r.len : Int))

instance (r : Region) (addr : Int) (n : Nat) : Decidable (r.holds addr n) := by
  unfold Region.holds; infer_instance

/-- The libc function `memcpy` of `n` bytes from `src`, a pointer into the object `sobj`, to
`dest`, a pointer into the object `dobj`: it returns `dest` when both ranges lie inside their
objects; when one does not the behaviour is undefined (on Linux the process is killed by
`SIGSEGV` or `SIGBUS` when the pages are not mapped), which is `none`.  The bytes copied are
not part of the model. -/
def memcpy (dobj sobj : Region) (dest src : Int) (n : Nat) : Option Int :=
  if dobj.holds dest n ∧ sobj.holds src n then some dest else none

/-- A copy of `bytes` bytes between a buffer of a worker, allocated with `io_size_max` bytes,
and the mapping, made with `file_size` bytes, at `offset` stays inside both objects. -/
def copy_in_bounds (g_args : mrw_args_t) (bytes : Nat) (offset : Int) : Prop :=
  bytes = 0 ∨
  (0 ≤ offset ∧ offset + (bytes : Int) ≤ (g_args.file_size : Int) ∧ bytes ≤ g_args.io_size_max)

instance (g_args : mrw_args_t) (bytes : Nat) (offset : Int) :
    Decidable (copy_in_bounds g_args bytes offset) := by
  unfold copy_in_bounds; infer_instance

/-- The function `mrw_read`.  The transfer is appended to the trace.  `ret` starts as
`bytes` and `ret_mmap` as `buf`; on the mapped path `ret_mmap` is the result of the `memcpy`
from the mapping of `file_size` bytes into the read buffer of `io_size_max` bytes, otherwise
`ret` is the result of `pread`.  `ret` is an `ssize_t` and `ret != bytes` compares it with
the `size_t` after conversion to unsigned. -/
def mrw_read (g_args : mrw_args_t) (env : Env) (bytes : Nat) (offset : Int) (p : Proc) : Proc :=
  let t : Transfer := ⟨Op.read, g_args.is_mmap, p.targs.fd, bytes, offset⟩
  let mmap : Int := p.targs.fd_mmap + offset
  let p1 : Proc :=
    { p with trace := p.trace ++ [t], nsys := if g_args.is_mmap then p.nsys else p.nsys + 1 }
  let ret : Int := if g_args.is_mmap then toS64 bytes else env.sysret p.nsys t
  let copied : Option Int :=
    if g_args.is_mmap then
      memcpy ⟨p.targs.read_buf, g_args.io_size_max⟩ ⟨p.targs.fd_mmap, g_args.file_size⟩
        p.targs.read_buf mmap bytes
    else some p.targs.read_buf
  match copied with
  | none => p1.stop Status.bad_access
  | some ret_mmap =>
    if toU64 ret ≠ bytes ∨ ret_mmap ≠ p.targs.read_buf then
      { p1 with status := Status.exited 1 (Diag.read_error p.targs.fd offset bytes ret) }
    else p1

/-- The function `mrw_write`, symmetric to `mrw_read`: on the mapped path the `memcpy` goes
from the write buffer into the mapping, otherwise `ret` is the result of `pwrite`. -/
def mrw_write (g_args : mrw_args_t) (env : Env) (bytes : Nat) (offset : Int) (p : Proc) : Proc :=
  let t : Transfer := ⟨Op.write, g_args.is_mmap, p.targs.fd, bytes, offset⟩
  let mmap : Int := p.targs.fd_mmap + offset
  let p1 : Proc :=
    { p with trace := p.trace ++ [t], nsys := if g_args.is_mmap then p.nsys else p.nsys + 1 }
  let ret : Int := if g_args.is_mmap then toS64 bytes else env.sysret p.nsys t
  let copied : Option Int :=
    if g_args.is_mmap then
      memcpy ⟨p.targs.fd_mmap, g_args.file_size⟩ ⟨p.targs.write_buf, g_args.io_size_max⟩
        mmap p.targs.write_buf bytes
    else some mmap
  match copied with
  | none => p1.stop Status.bad_access
  | some ret_mmap =>
    if toU64 ret ≠ bytes ∨ ret_mmap ≠ mmap then
      { p1 with status := Status.exited 1 (Diag.write_error p.targs.fd offset bytes ret) }
    else p1

/-- One transfer in the given direction. -/
def mrw_io (g_args : mrw_args_t) (env : Env) (op : Op) (bytes : Nat) (offset : Int)
    (p : Proc) : Proc :=
  match op with
  | Op.read => mrw_read g_args env bytes offset p
  | Op.write => mrw_write g_args env bytes offset p

/-! ## multirw.c: one burst -/

/-- The body of the `for` loops of `mrw_do_io_burst`: the size is one draw reduced modulo
`io_size_max` (32-bit unsigned), the offset a second draw reduced modulo `file_size - size`
(64-bit unsigned, wrapping), converted to `off_t`; then the transfer.  A zero divisor stops
the process. -/
def burst_io (g_args : mrw_args_t) (g : Rng) (env : Env) (op : Op) (p : Proc) : Proc :=
  if p.status ≠ Status.running then p
  else
    let r1 := rand_r g p.targs.seed
    match c_rem r1.1 g_args.io_size_max with
    | none => (p.setSeed r1.2).stop Status.rem_by_zero
    | some size =>
      let r2 := rand_r g r1.2
      match c_rem r2.1 (toU64 ((g_args.file_size : Int) - (size : Int))) with
      | none => (p.setSeed r2.2).stop Status.rem_by_zero
      | some off => mrw_io g_args env op size (toS64 off) (p.setSeed r2.2)

/-- The body `burst_io` executed `n` times in sequence. -/
def burst_loop (g_args : mrw_args_t) (g : Rng) (env : Env) (op : Op) : Nat → Proc → Proc
  | 0, p => p
  | n + 1, p => burst_loop g_args g env op n (burst_io g_args g env op p)

/-- The I/O type of a burst and the state after deciding it: the configured type unless it is
`MRW_RW`, in which case one draw decides (odd: read, even: write). -/
def burst_type (g_args : mrw_args_t) (g : Rng) (p : Proc) : Int × Proc :=
  if g_args.io_type ≠ MRW_RW then (g_args.io_type, p)
  else
    let r := rand_r g p.targs.seed
    (if r.1 % 2 ≠ 0 then MRW_READ else MRW_WRITE, p.setSeed r.2)

/-- The direction of the loop taken for an I/O type: the read loop for `MRW_READ`, the write
loop for anything else. -/
def burst_op (io_type : Int) : Op := if io_type = MRW_READ then Op.read else Op.write

/-- The function `mrw_do_io_burst`.  The counter `i` of the loops is an `int` compared with
the `uint32_t` count: the body runs `io_burst_count` times, and for a count above `INT_MAX`
the increment overflows after `2 ^ 31` rounds. -/
def mrw_do_io_burst (g_args : mrw_args_t) (g : Rng) (env : Env) (p : Proc) : Proc :=
  if p.status ≠ Status.running then p
  else
    let d := burst_type g_args g p
    let p1 := burst_loop g_args g env (burst_op d.1) (min g_args.io_burst_count 2147483648) d.2
    if 2147483648 ≤ g_args.io_burst_count ∧ p1.status = Status.running then
      p1.stop Status.int_overflow
    else p1

/-! ## multirw.c: the worker -/

/-- The function `io_stream_open`. -/
def io_stream_open (g_args : mrw_args_t) (env : Env) (p : Proc) : Proc :=
  if p.status ≠ Status.running then p
  else
    match (mrw_file_open g_args env.sys_open).out with
    | Ret.exit code msg => p.stop (Status.exited code msg)
    | Ret.ret fd =>
      let p1 : Proc := { p with targs := { p.targs with fd := fd } }
      if g_args.is_mmap then
        match env.sys_mmap with
        | none => p1.stop (Status.exited 1 Diag.mmap_failed)
        | some a => { p1 with targs := { p1.targs with fd_mmap := a } }
      else p1

/-- Lines 225 to 237 of `io_stream`: the seed is set to
`first_seed + thread_id` (32-bit unsigned), the descriptor is opened in per-thread mode, the
two buffers are allocated and asserted, and one draw fills the write buffer. -/
def io_stream_init (g_args : mrw_args_t) (g : Rng) (env : Env) (p : Proc) : Proc :=
  if p.status ≠ Status.running then p
  else
    let p2 := p.setSeed (toU32 ((g_args.first_seed : Int) + (p.targs.thread_id : Int)))
    let p3 := if g_args.is_multiple_fd then io_stream_open g_args env p2 else p2
    if p3.status ≠ Status.running then p3
    else if env.malloc_write = 0 then p3.stop Status.aborted
    else if env.malloc_read = 0 then p3.stop Status.aborted
    else
      let p4 : Proc :=
        { p3 with targs := { p3.targs with write_buf := env.malloc_write,
                                           read_buf := env.malloc_read } }
      p4.setSeed (rand_r g p4.targs.seed).2

/-- The timed loop of `io_stream`: `while (time(NULL) - start_time < runtime_s)` one burst.
The comparison is signed 64-bit; `k` counts the calls of `time` made so far.  `none` when the
fuel runs out before the loop ends. -/
def io_stream_loop (g_args : mrw_args_t) (g : Rng) (env : Env) (start_time : Int) :
    Nat → Nat → Proc → Option Proc
  | 0, _, _ => none
  | fuel + 1, k, p =>
    if p.status ≠ Status.running then some p
    else if env.clock k - start_time < (g_args.runtime_s : Int) then
      io_stream_loop g_args g env start_time fuel (k + 1) (mrw_do_io_burst g_args g env p)
    else some p

/-- Lines 243 to 257 of `io_stream`: the access to the last file chunk. -/
def io_stream_tail (g_args : mrw_args_t) (g : Rng) (env : Env) (p : Proc) : Proc :=
  if p.status ≠ Status.running then p
  else if g_args.is_last_chunk then
    let r := rand_r g p.targs.seed
    match c_rem r.1 g_args.io_size_max with
    | none => (p.setSeed r.2).stop Status.rem_by_zero
    | some size =>
      let offset := toS64 (toU64 ((g_args.file_size : Int) - 1 - (size : Int)))
      if g_args.io_type = MRW_WRITE then mrw_write g_args env size offset (p.setSeed r.2)
      else mrw_read g_args env size offset (p.setSeed r.2)
  else p

/-- Lines 259 to 265 of `io_stream`: the descriptor is closed, the buffers are freed and the
thread ends. -/
def io_stream_end (p : Proc) : Proc :=
  if p.status ≠ Status.running then p else p.stop Status.finished

/-- The state in which `main` hands a `thread_args_t` to a new thread. -/
def Proc.spawn (targs : thread_args_t) : Proc :=
  { targs := targs, nsys := 0, trace := [], status := Status.running }

/-- Lines 220 to 241 of `io_stream`, run with the given fuel for the timed loop: the start
time is the first answer of `time`, then the initialisation and the timed loop. -/
def io_stream_timed (g_args : mrw_args_t) (g : Rng) (env : Env) (fuel : Nat)
    (targs : thread_args_t) : Option Proc :=
  io_stream_loop g_args g env (env.clock 0) fuel 1
    (io_stream_init g_args g env (Proc.spawn targs))

/-- The function `io_stream`, run with the given fuel for its timed loop: the start time is
the first answer of `time`, then the initialisation, the timed loop, the access to the last
chunk and the end of the thread. -/
def io_stream (g_args : mrw_args_t) (g : Rng) (env : Env) (fuel : Nat) (targs : thread_args_t) :
    Option Proc :=
  (io_stream_timed g_args g env fuel targs).map
    (fun p => io_stream_end (io_stream_tail g_args g env p))

/-- The function `mrw_do_io_burst` called `n` times in sequence. -/
def bursts (g_args : mrw_args_t) (g : Rng) (env : Env) : Nat → Proc → Proc
  | 0, p => p
  | n + 1, p => bursts g_args g env n (mrw_do_io_burst g_args g env p)

/-- The answers of the system calls are exact: every positional call returns the size asked
for. -/
def Env.exact (env : Env) : Prop := ∀ (k : Nat) (t : Transfer), env.sysret k t = (t.size : Int)

/-- What `burst_io` guarantees of a transfer it issues in direction `op`: the size is a value
below `2 ^ 31` reduced modulo a non-zero `io_size_max`, the offset a value below `2 ^ 31`
reduced modulo the non-zero 64-bit difference `file_size - size`. -/
def BurstDraw (g_args : mrw_args_t) (op : Op) (t : Transfer) : Prop :=
  t.op = op ∧ ∃ r1 r2 : Nat, r1 < 2147483648 ∧ r2 < 2147483648 ∧ g_args.io_size_max ≠ 0 ∧
    t.size = r1 % g_args.io_size_max ∧
    toU64 ((g_args.file_size : Int) - (t.size : Int)) ≠ 0 ∧
    t.offset = toS64 (r2 % toU64 ((g_args.file_size : Int) - (t.size : Int)))

/-! ## args.c -/

/-- What libc computes from the argument string of an option: the results of `atoi` and of
`atol`, and the string itself. -/
structure OptArg where
  atoi : Int
  atol : Int
  str : String
  deriving DecidableEq, Repr

/-- The key handed to `parse_opt`: an option character, a positional argument, or the end of
the arguments. -/
inductive Key
  | opt (c : Char)
  | ARGP_KEY_ARG
  | ARGP_KEY_END
  deriving DecidableEq, Repr

/-- The part of `struct argp_state` that `parse_opt` reads: the arguments being filled and the
number of positional arguments seen so far. -/
structure argp_state where
  input : mrw_args_t
  arg_num : Nat
  deriving DecidableEq, Repr

/-- Result of `parse_opt`: the arguments after the assignment (return value `0`), the return
value `ARGP_ERR_UNKNOWN`, or the call of `argp_usage`, which ends the process. -/
inductive ParseRes
  | ok (args : mrw_args_t)
  | unknown
  | usage
  deriving DecidableEq, Repr

/-- The function `parse_opt`.  No value is validated: a flag is set by a non-zero `atoi`, a
32-bit field takes the value modulo `2 ^ 32`, the file size the `atol` value modulo `2 ^ 64`,
the I/O type the `atoi` value as it is. -/
def parse_opt (key : Key) (arg : OptArg) (state : argp_state) : ParseRes :=
  let args := state.input
  match key with
  | Key.opt c =>
    if c = 'b' then ParseRes.ok { args with is_cache_bypass := decide (arg.atoi ≠ 0) }
    else if c = 'd' then ParseRes.ok { args with runtime_s := toU32 arg.atoi }
    else if c = 't' then ParseRes.ok { args with nb_threads := toU32 arg.atoi }
    else if c = 'm' then ParseRes.ok { args with is_mmap := decide (arg.atoi ≠ 0) }
    else if c = 'p' then ParseRes.ok { args with io_type := arg.atoi }
    else if c = 'l' then ParseRes.ok { args with is_last_chunk := decide (arg.atoi ≠ 0) }
    else if c = 's' then ParseRes.ok { args with first_seed := toU32 arg.atol }
    else if c = 'v' then ParseRes.ok { args with verbosity_lvl := 1 }
    else if c = 'i' then ParseRes.ok { args with io_size_max := toU32 arg.atol }
    else if c = 'f' then ParseRes.ok { args with file_size := toU64 arg.atol }
    else if c = 'F' then ParseRes.ok { args with is_multiple_fd := decide (arg.atoi ≠ 0) }
    else ParseRes.unknown
  | Key.ARGP_KEY_ARG =>
    if state.arg_num = 0 then ParseRes.ok { args with file_path := arg.str }
    else ParseRes.ok args
  | Key.ARGP_KEY_END =>
    if state.arg_num ≠ 1 then ParseRes.usage else ParseRes.ok args

/-- The libc function `argp_parse` on the command line already split into keys and
arguments: `parse_opt` is called on each in turn, a positional argument advances `arg_num`,
and the end key comes last.  An unknown option and `argp_usage` both end the process. -/
def argp_parse : List (Key × OptArg) → argp_state → Option mrw_args_t
  | [], state =>
    match parse_opt Key.ARGP_KEY_END ⟨0, 0, ""⟩ state with
    | ParseRes.ok args => some args
    | _ => none
  | (key, arg) :: rest, state =>
    match parse_opt key arg state with
    | ParseRes.ok args =>
      argp_parse rest
        { input := args,
          arg_num := if key = Key.ARGP_KEY_ARG then state.arg_num + 1 else state.arg_num }
    | _ => none

/-- The defaults that `mrw_args_retrieve` sets before parsing (`pid` is the result of
`getpid`, stored in a `uint32_t`). -/
def mrw_args_default (pid : Int) : mrw_args_t :=
  { file_path := "",
    file_size := FILE_SIZE_DEFAULT,
    nb_threads := NB_THREADS_DEFAULT,
    is_mmap := false,
    io_type := MRW_RW,
    runtime_s := RUNTIME_SEC_DEFAULT,
    first_seed := toU32 pid,
    io_size_max := IO_SIZE_MAX,
    io_burst_count := IO_BURST_COUNT,
    verbosity_lvl := 0,
    is_last_chunk := true,
    is_multiple_fd := false,
    is_cache_bypass := false }

/-- The function `mrw_args_retrieve`: `none` when `argp_parse` ended the process. -/
def mrw_args_retrieve (pid : Int) (argv : List (Key × OptArg)) : Option mrw_args_t :=
  argp_parse argv { input := mrw_args_default pid, arg_num := 0 }

/-! ## multirw.c: the main thread -/

/-- What the main thread did up to the end of the loop that creates the threads: the thread
arguments of the threads it created, in order, and the status of the process then
(`running`: the main thread goes on to `pthread_join`). -/
structure MainRun where
  spawned : List thread_args_t
  status : Status
  deriving DecidableEq, Repr

/-- The system call `ftruncate`: it fails for a negative length (`EINVAL`, as POSIX
requires); for any other length the environment answers. -/
def ftruncate (env : Env) (fd : Int) (length : Int) : Int :=
  if length < 0 then -1 else env.sys_ftruncate fd length

/-- The function `mrw_file_init`: the status after it.  The `uint64_t` file size is passed
to `ftruncate` as an `off_t`. -/
def mrw_file_init (g_args : mrw_args_t) (env : Env) : Status :=
  match (mrw_file_open_internal g_args env.sys_open O_RDWR).out with
  | Ret.exit code msg => Status.exited code msg
  | Ret.ret fd =>
    if ftruncate env fd (toS64 g_args.file_size) < 0 then
      Status.exited 1 (Diag.truncate_failed g_args.file_path)
    else Status.running

/-- Lines 286 to 290 of `main`: the thread arguments are allocated, unchecked, and in shared
descriptor mode `io_stream_open` is called on `targs[0]`, whose first store needs the
allocation to hold at least one element.  `uninit` is the content of the fresh allocation. -/
def main_open (g_args : mrw_args_t) (env : Env) (uninit : thread_args_t) : Proc :=
  if g_args.is_multiple_fd then Proc.spawn uninit
  else
    match (mrw_file_open g_args env.sys_open).out with
    | Ret.exit code msg => (Proc.spawn uninit).stop (Status.exited code msg)
    | Ret.ret _ =>
      if env.malloc_targs = 0 ∨ g_args.nb_threads = 0 then
        (Proc.spawn uninit).stop Status.bad_access
      else io_stream_open g_args env (Proc.spawn uninit)

/-- Lines 293 to 299 of `main`, for the `n` identifiers from `i` on: `targs[i]` gets the
descriptor and the mapping of `targs[0]` and its identifier, and `pthread_create` is called
with it, unchecked; `acc` holds the threads created so far.  The workers run while the loop
goes on: once a thread exists, a worker can end the whole process (`exit(1)`, a signal)
before the main thread makes its next step. -/
def main_create (env : Env) (t0 : thread_args_t) :
    Nat → Nat → List thread_args_t → MainRun
  | 0, _, acc => { spawned := acc, status := Status.running }
  | n + 1, i, acc =>
    let acc1 :=
      if env.sys_pthread_create i = 0 then acc ++ [{ t0 with thread_id := i }] else acc
    match env.worker_ended i with
    | some s =>
      if acc1 ≠ [] ∧ s.ends_process = true then { spawned := acc1, status := s }
      else main_create env t0 n (i + 1) acc1
    | none => main_create env t0 n (i + 1) acc1

/-- Lines 284 to 299 of `main`, after `mrw_args_retrieve` returned `g_args`: the file is
initialised, the thread arguments are allocated, the shared descriptor is opened unless each
thread opens its own, and the threads are created in order of identifier.  The rest of
`main` (lines 301 to 309) waits for the workers and returns 0 only if none of them ends the
process; it is not part of this function. -/
def main_run (g_args : mrw_args_t) (env : Env) (uninit : thread_args_t) : MainRun :=
  match mrw_file_init g_args env with
  | Status.running =>
    let p1 := main_open g_args env uninit
    if p1.status ≠ Status.running then { spawned := [], status := p1.status }
    else if 1 ≤ g_args.nb_threads ∧ env.malloc_targs = 0 then
      { spawned := [], status := Status.bad_access }
    else main_create env p1.targs g_args.nb_threads 0 []
  | s => { spawned := [], status := s }

/-- The sequence of `(mode, offset, size)` triples a thread of control has issued. -/
def Proc.triples (p : Proc) : List (Op × Int × Nat) := p.trace.map Transfer.triple

/-- Two workers are in step: both are running, their generators are in the same state and
they have issued the same triples. -/
def InStep (p1 p2 : Proc) : Prop :=
  p1.status = Status.running ∧ p2.status = Status.running ∧
  p1.targs.seed = p2.targs.seed ∧ p1.triples = p2.triples

/-- Two workers are compatible: they are in step, or one of them has stopped and the triples
it issued are the beginning of those of the other. -/
def Compat (p1 p2 : Proc) : Prop :=
  InStep p1 p2 ∨ (p1.status ≠ Status.running ∧ p1.triples <+: p2.triples) ∨
  (p2.status ≠ Status.running ∧ p2.triples <+: p1.triples)

/-- The two configurations agree on the fields that the triples depend on. -/
def SameDraws (c1 c2 : mrw_args_t) : Prop :=
  c1.first_seed = c2.first_seed ∧ c1.io_type = c2.io_type ∧ c1.io_size_max = c2.io_size_max ∧
  c1.file_size = c2.file_size ∧ c1.io_burst_count = c2.io_burst_count

instance (c1 c2 : mrw_args_t) : Decidable (SameDraws c1 c2) := by
  unfold SameDraws; infer_instance

/-! ## Concrete inputs used to evaluate the model -/

/-- A generator: the value is an affine image of the seed, the next seed the successor. -/
def ex_rng : Rng := fun s => (s * 1103515245 + 12345, s + 1)

/-- An environment in which every call succeeds: transfers are exact, the clock advances by
one second per call, `open` answers descriptor 3, and no worker ends the process while the
threads are created. -/
def ex_env : Env :=
  { sysret := fun _ t => (t.size : Int),
    clock := fun k => (k : Int),
    sys_open := fun _ => 3,
    sys_mmap := some 4096,
    sys_ftruncate := fun _ _ => 0,
    malloc_write := 1000,
    malloc_read := 2000,
    malloc_targs := 3000,
    sys_pthread_create := fun _ => 0,
    worker_ended := fun _ => none }

/-- A small configuration: a file of 100 bytes, transfers below 16 bytes, bursts of 3. -/
def ex_args : mrw_args_t :=
  { file_path := "f",
    file_size := 100,
    nb_threads := 2,
    is_mmap := false,
    is_last_chunk := true,
    is_multiple_fd := false,
    is_cache_bypass := false,
    io_type := MRW_RW,
    runtime_s := 1,
    first_seed := 7,
    io_size_max := 16,
    io_burst_count := 3,
    verbosity_lvl := 0 }

/-- Thread arguments as `main` hands them to thread 0. -/
def ex_targs : thread_args_t :=
  { thread_id := 0, seed := 0, fd := 3, read_buf := 0, write_buf := 0, fd_mmap := 0 }

/-- A configuration whose file is larger than the range of the generator: 4 GiB. -/
def ex_big_args : mrw_args_t :=
  { ex_args with file_size := 4294967296 }

/-- The small configuration with `io_size_max = 0`. -/
def ex_zero_args : mrw_args_t :=
  { ex_args with io_size_max := 0 }

/-- The command line `-i 0 f`. -/
def ex_argv_i0 : List (Key × OptArg) :=
  [(Key.opt 'i', ⟨0, 0, "0"⟩), (Key.ARGP_KEY_ARG, ⟨0, 0, "f"⟩)]

/-- The configuration that `mrw_args_retrieve` makes of `-i 0 f` in the process 7. -/
def ex_i0_args : mrw_args_t :=
  { mrw_args_default 7 with file_path := "f", io_size_max := 0 }

/-- The command line `-d 0 -f 100 -i 16 -t 2 f`: no timed burst, a file of 100 bytes,
transfers below 16 bytes, two threads; the access to the last chunk is enabled by default. -/
def ex_argv_tail : List (Key × OptArg) :=
  [(Key.opt 'd', ⟨0, 0, "0"⟩), (Key.opt 'f', ⟨100, 100, "100"⟩), (Key.opt 'i', ⟨16, 16, "16"⟩),
   (Key.opt 't', ⟨2, 2, "2"⟩), (Key.ARGP_KEY_ARG, ⟨0, 0, "f"⟩)]

/-- The configuration that `mrw_args_retrieve` makes of `-d 0 -f 100 -i 16 -t 2 f` in the
process 7. -/
def ex_tail_args : mrw_args_t :=
  { mrw_args_default 7 with file_path := "f", runtime_s := 0, file_size := 100,
                            io_size_max := 16, nb_threads := 2 }

/-- The small configuration with a run time of zero seconds. -/
def ex_args0 : mrw_args_t :=
  { ex_args with runtime_s := 0 }

/-- An environment in which `open` answers descriptor 0, as it does when the standard input
was closed. -/
def ex_env_fd0 : Env :=
  { ex_env with sys_open := fun _ => 0 }

/-- The configuration that `mrw_args_retrieve` makes of `-p 3 f` in the process 1. -/
def ex_p3_args : mrw_args_t :=
  { mrw_args_default 1 with file_path := "f", io_type := 3 }

/-- The command line `f`. -/
def ex_argv_plain : List (Key × OptArg) :=
  [(Key.ARGP_KEY_ARG, ⟨0, 0, "f"⟩)]

/-- The configuration that `mrw_args_retrieve` makes of `f` in the process 1: the defaults. -/
def ex_plain_args : mrw_args_t :=
  { mrw_args_default 1 with file_path := "f" }

/-- The command line `-p 3 f`. -/
def ex_argv_p3 : List (Key × OptArg) :=
  [(Key.opt 'p', ⟨3, 3, "3"⟩), (Key.ARGP_KEY_ARG, ⟨0, 0, "f"⟩)]

/-- The small configuration with memory mapped access, as `-m 1` sets it. -/
def ex_mmap_args : mrw_args_t :=
  { ex_args with is_mmap := true }

/-- An environment whose clock stands still for the first check of the timed loop, so that a
run time of one second lets one burst through. -/
def ex_env_slow : Env :=
  { ex_env with clock := fun k => if k ≤ 1 then 0 else (k : Int) }

/-- The small configuration with reads only, as `-p 0` sets it. -/
def ex_read_args : mrw_args_t :=
  { ex_args with io_type := MRW_READ }

/-- An environment whose clock stands still for the first two checks of the timed loop, so
that a run time of one second lets two bursts through. -/
def ex_env_slower : Env :=
  { ex_env with clock := fun k => if k ≤ 2 then 0 else (k : Int) }

theorem toU64_natCast (n : Nat) : toU64 (n : Int) = n % 18446744073709551616 := by
  unfold toU64; omega

theorem toU64_of_lt (n : Nat) (h : n < 18446744073709551616) : toU64 (n : Int) = n := by
  unfold toU64; omega

theorem toU64_lt (x : Int) : toU64 x < 18446744073709551616 := by
  unfold toU64; omega

theorem toU64_sub_of_le (a b : Nat) (hab : b ≤ a) (ha : a < 18446744073709551616) :
    toU64 ((a : Int) - (b : Int)) = a - b := by
  unfold toU64; omega

theorem toS64_of_lt (n : Nat) (h : n < 9223372036854775808) : toS64 n = (n : Int) := by
  unfold toS64
  have h1 : n % 18446744073709551616 = n := Nat.mod_eq_of_lt (by omega)
  rw [h1, if_pos h]

theorem toU64_toS64 (n : Nat) : toU64 (toS64 n) = n % 18446744073709551616 := by
  unfold toU64 toS64
  split <;> omega

theorem rand_r_lt (g : Rng) (seed : Nat) : (rand_r g seed).1 < 2147483648 := by
  unfold rand_r
  exact Nat.mod_lt _ (by decide)

theorem rand_r_seed_lt (g : Rng) (seed : Nat) : (rand_r g seed).2 < 4294967296 := by
  unfold rand_r
  exact Nat.mod_lt _ (by decide)

theorem c_rem_eq_none (a b : Nat) : c_rem a b = none ↔ b = 0 := by
  unfold c_rem; split <;> simp_all

theorem c_rem_eq_some (a b r : Nat) : c_rem a b = some r ↔ b ≠ 0 ∧ r = a % b := by
  unfold c_rem; split <;> simp_all [eq_comm]


/-! ### One transfer -/

/-- The `memcpy` of `mrw_read` returns the buffer exactly when the copy is in bounds. -/
theorem memcpy_from_map (g_args : mrw_args_t) (buf map : Int) (bytes : Nat) (offset : Int) :
    memcpy ⟨buf, g_args.io_size_max⟩ ⟨map, g_args.file_size⟩ buf (map + offset) bytes =
      if copy_in_bounds g_args bytes offset then some buf else none := by
  unfold memcpy copy_in_bounds Region.holds
  simp only
  split_ifs with h1 h2 h2 <;> first | rfl | (exfalso; omega)

/-- The `memcpy` of `mrw_write` returns its destination exactly when the copy is in bounds. -/
theorem memcpy_to_map (g_args : mrw_args_t) (buf map : Int) (bytes : Nat) (offset : Int) :
    memcpy ⟨map, g_args.file_size⟩ ⟨buf, g_args.io_size_max⟩ (map + offset) buf bytes =
      if copy_in_bounds g_args bytes offset then some (map + offset) else none := by
  unfold memcpy copy_in_bounds Region.holds
  simp only
  split_ifs with h1 h2 h2 <;> first | rfl | (exfalso; omega)

/-- The function `mrw_read` by cases: a copy out of bounds on the mapped path stops the
process, a result other than the size asked for ends it with the diagnostic, and otherwise
the function returns. -/
theorem mrw_read_eq (g_args : mrw_args_t) (env : Env) (bytes : Nat) (offset : Int) (p : Proc) :
    mrw_read g_args env bytes offset p =
      if g_args.is_mmap = true ∧ ¬ copy_in_bounds g_args bytes offset then
        { p with trace := p.trace ++ [⟨Op.read, g_args.is_mmap, p.targs.fd, bytes, offset⟩],
                 nsys := if g_args.is_mmap then p.nsys else p.nsys + 1,
                 status := Status.bad_access }
      else if toU64 (if g_args.is_mmap then toS64 bytes else
          env.sysret p.nsys ⟨Op.read, g_args.is_mmap, p.targs.fd, bytes, offset⟩) ≠ bytes then
        { p with trace := p.trace ++ [⟨Op.read, g_args.is_mmap, p.targs.fd, bytes, offset⟩],
                 nsys := if g_args.is_mmap then p.nsys else p.nsys + 1,
                 status := Status.exited 1 (Diag.read_error p.targs.fd offset bytes
                   (if g_args.is_mmap then toS64 bytes else
                     env.sysret p.nsys ⟨Op.read, g_args.is_mmap, p.targs.fd, bytes, offset⟩)) }
      else
        { p with trace := p.trace ++ [⟨Op.read, g_args.is_mmap, p.targs.fd, bytes, offset⟩],
                 nsys := if g_args.is_mmap then p.nsys else p.nsys + 1 } := by
  unfold mrw_read
  simp only [memcpy_from_map, Proc.stop]
  cases g_args.is_mmap
  · simp
  · by_cases h : copy_in_bounds g_args bytes offset <;> simp [h]

/-- The function `mrw_write` by cases, as for `mrw_read`. -/
theorem mrw_write_eq (g_args : mrw_args_t) (env : Env) (bytes : Nat) (offset : Int) (p : Proc) :
    mrw_write g_args env bytes offset p =
      if g_args.is_mmap = true ∧ ¬ copy_in_bounds g_args bytes offset then
        { p with trace := p.trace ++ [⟨Op.write, g_args.is_mmap, p.targs.fd, bytes, offset⟩],
                 nsys := if g_args.is_mmap then p.nsys else p.nsys + 1,
                 status := Status.bad_access }
      else if toU64 (if g_args.is_mmap then toS64 bytes else
          env.sysret p.nsys ⟨Op.write, g_args.is_mmap, p.targs.fd, bytes, offset⟩) ≠ bytes then
        { p with trace := p.trace ++ [⟨Op.write, g_args.is_mmap, p.targs.fd, bytes, offset⟩],
                 nsys := if g_args.is_mmap then p.nsys else p.nsys + 1,
                 status := Status.exited 1 (Diag.write_error p.targs.fd offset bytes
                   (if g_args.is_mmap then toS64 bytes else
                     env.sysret p.nsys ⟨Op.write, g_args.is_mmap, p.targs.fd, bytes, offset⟩)) }
      else
        { p with trace := p.trace ++ [⟨Op.write, g_args.is_mmap, p.targs.fd, bytes, offset⟩],
                 nsys := if g_args.is_mmap then p.nsys else p.nsys + 1 } := by
  unfold mrw_write
  simp only [memcpy_to_map, Proc.stop]
  cases g_args.is_mmap
  · simp
  · by_cases h : copy_in_bounds g_args bytes offset <;> simp [h]

/-- The transfer record that `mrw_read` or `mrw_write` appends. -/
theorem mrw_io_trace (g_args : mrw_args_t) (env : Env) (op : Op) (bytes : Nat) (offset : Int)
    (p : Proc) :
    (mrw_io g_args env op bytes offset p).trace =
      p.trace ++ [⟨op, g_args.is_mmap, p.targs.fd, bytes, offset⟩] := by
  cases op <;> simp only [mrw_io, mrw_read_eq, mrw_write_eq] <;> split_ifs <;> rfl

theorem mrw_io_targs (g_args : mrw_args_t) (env : Env) (op : Op) (bytes : Nat) (offset : Int)
    (p : Proc) : (mrw_io g_args env op bytes offset p).targs = p.targs := by
  cases op <;> simp only [mrw_io, mrw_read_eq, mrw_write_eq] <;> split_ifs <;> rfl

/-- A transfer leaves the status as it was, or ends the process with `exit(1)`, or stops it
on a memory access out of bounds: it never turns the status into a remainder by zero. -/
theorem mrw_io_status_cases (g_args : mrw_args_t) (env : Env) (op : Op) (bytes : Nat)
    (offset : Int) (p : Proc) :
    (mrw_io g_args env op bytes offset p).status = p.status ∨
    (∃ d, (mrw_io g_args env op bytes offset p).status = Status.exited 1 d) ∨
    (mrw_io g_args env op bytes offset p).status = Status.bad_access := by
  cases op <;> simp only [mrw_io, mrw_read_eq, mrw_write_eq] <;> split_ifs <;>
    first
      | exact Or.inl rfl
      | exact Or.inr (Or.inl ⟨_, rfl⟩)
      | exact Or.inr (Or.inr rfl)

/-- With exact answers of the system calls, and on the mapped path a copy in bounds, a
transfer of less than `2 ^ 64` bytes leaves the status as it was. -/
theorem mrw_io_status_exact (g_args : mrw_args_t) (env : Env) (op : Op) (bytes : Nat)
    (offset : Int) (p : Proc) (hb : bytes < 18446744073709551616) (hx : env.exact)
    (hin : copy_in_bounds g_args bytes offset) :
    (mrw_io g_args env op bytes offset p).status = p.status := by
  have h1 : toU64 (toS64 bytes) = bytes := by rw [toU64_toS64]; omega
  have h2 : ∀ t : Transfer, t.size = bytes → toU64 (env.sysret p.nsys t) = bytes := by
    intro t ht; rw [hx, ht, toU64_of_lt _ hb]
  cases op <;> simp only [mrw_io, mrw_read_eq, mrw_write_eq] <;>
    cases hm : g_args.is_mmap <;> simp [h1, h2, hin]


/-! ### One round of a burst -/

/-- One round of a burst either issues nothing and leaves the process stopped, or issues one
transfer that satisfies `BurstDraw` and advances the generator by two draws. -/
theorem burst_io_spec (g_args : mrw_args_t) (g : Rng) (env : Env) (op : Op) (p : Proc) :
    ((burst_io g_args g env op p).trace = p.trace ∧
      (burst_io g_args g env op p).status ≠ Status.running) ∨
    (p.status = Status.running ∧
      ∃ t, (burst_io g_args g env op p).trace = p.trace ++ [t] ∧ BurstDraw g_args op t ∧
        t.mapped = g_args.is_mmap ∧ t.fd = p.targs.fd ∧
        (burst_io g_args g env op p).targs.seed = skip g 2 p.targs.seed) := by
  unfold burst_io
  by_cases hs : p.status = Status.running
  · rw [if_neg (by simpa using hs)]
    simp only
    cases h1 : c_rem (rand_r g p.targs.seed).1 g_args.io_size_max with
    | none => left; simp [Proc.stop, Proc.setSeed]
    | some size =>
      simp only
      rw [c_rem_eq_some] at h1
      cases h2 : c_rem (rand_r g (rand_r g p.targs.seed).2).1
          (toU64 ((g_args.file_size : Int) - (size : Int))) with
      | none => left; simp [Proc.stop, Proc.setSeed]
      | some off =>
        simp only
        rw [c_rem_eq_some] at h2
        right
        refine ⟨hs, ⟨op, g_args.is_mmap, p.targs.fd, size, toS64 off⟩, ?_, ?_, rfl, rfl, ?_⟩
        · rw [mrw_io_trace]; rfl
        · refine ⟨rfl, (rand_r g p.targs.seed).1, (rand_r g (rand_r g p.targs.seed).2).1,
            rand_r_lt _ _, rand_r_lt _ _, h1.1, h1.2, h2.1, ?_⟩
          simp only [h2.2]
        · rw [mrw_io_targs]; rfl
  · left
    rw [if_pos (by simpa using hs)]
    exact ⟨rfl, hs⟩


theorem skip_add (g : Rng) (a b seed : Nat) :
    skip g (a + b) seed = skip g b (skip g a seed) := by
  induction a generalizing seed with
  | zero => simp [skip]
  | succ a ih =>
    have h : a + 1 + b = (a + b) + 1 := by omega
    rw [h]
    simp only [skip]
    exact ih _

theorem skip_lt (g : Rng) (n seed : Nat) (h : seed < 4294967296) :
    skip g n seed < 4294967296 := by
  induction n generalizing seed with
  | zero => simpa [skip] using h
  | succ n ih =>
    simp only [skip]
    exact ih _ (rand_r_seed_lt g seed)

theorem burst_io_of_stopped (g_args : mrw_args_t) (g : Rng) (env : Env) (op : Op) (p : Proc)
    (h : p.status ≠ Status.running) : burst_io g_args g env op p = p := by
  unfold burst_io
  rw [if_pos h]

theorem burst_loop_of_stopped (g_args : mrw_args_t) (g : Rng) (env : Env) (op : Op) (n : Nat)
    (p : Proc) (h : p.status ≠ Status.running) : burst_loop g_args g env op n p = p := by
  induction n with
  | zero => rfl
  | succ n ih => simp only [burst_loop]; rw [burst_io_of_stopped _ _ _ _ _ h]; exact ih

/-- The rounds of a burst: the transfers issued are appended to the trace, there are at most
`n` of them, each satisfies `BurstDraw`, and if the process is still running afterwards there
are exactly `n` and the generator has advanced by `2 * n` draws. -/
theorem burst_loop_spec (g_args : mrw_args_t) (g : Rng) (env : Env) (op : Op) (n : Nat)
    (p : Proc) :
    ∃ new, (burst_loop g_args g env op n p).trace = p.trace ++ new ∧ new.length ≤ n ∧
      (∀ t ∈ new, BurstDraw g_args op t ∧ t.mapped = g_args.is_mmap) ∧
      ((burst_loop g_args g env op n p).status = Status.running →
        p.status = Status.running ∧ new.length = n ∧
        (burst_loop g_args g env op n p).targs.seed = skip g (2 * n) p.targs.seed) := by
  induction n generalizing p with
  | zero => exact ⟨[], by simp [burst_loop], by simp, by simp, fun h => ⟨h, rfl, rfl⟩⟩
  | succ n ih =>
    simp only [burst_loop]
    obtain ⟨new, htr, hlen, hall, hrun⟩ := ih (burst_io g_args g env op p)
    rcases burst_io_spec g_args g env op p with ⟨h1, h2⟩ | ⟨hs, t, h1, h2, h3, _, h5⟩
    · refine ⟨new, by rw [htr, h1], by omega, hall, fun h => ?_⟩
      exact absurd (hrun h).1 h2
    · refine ⟨t :: new, by rw [htr, h1]; simp, by simp; omega, ?_, fun h => ?_⟩
      · intro u hu
        rcases List.mem_cons.mp hu with rfl | hu
        · exact ⟨h2, h3⟩
        · exact hall u hu
      · obtain ⟨_, hl, hseed⟩ := hrun h
        refine ⟨hs, by simp [hl], ?_⟩
        rw [hseed, h5, ← skip_add]
        congr 1
        omega


/-- With `1 ≤ io_size_max ≤ file_size < 2 ^ 64` both divisors of a round are non-zero: the
draws of a running round are defined and its transfer is issued. -/
theorem burst_io_defined (g_args : mrw_args_t) (g : Rng) (env : Env) (op : Op) (p : Proc)
    (h1 : 1 ≤ g_args.io_size_max) (h2 : g_args.io_size_max ≤ g_args.file_size)
    (h3 : g_args.file_size < 18446744073709551616) (hs : p.status = Status.running) :
    ∃ size off, size < g_args.io_size_max ∧
      c_rem (rand_r g p.targs.seed).1 g_args.io_size_max = some size ∧
      c_rem (rand_r g (rand_r g p.targs.seed).2).1
        (toU64 ((g_args.file_size : Int) - (size : Int))) = some off ∧
      burst_io g_args g env op p =
        mrw_io g_args env op size (toS64 off)
          (p.setSeed (rand_r g (rand_r g p.targs.seed).2).2) := by
  have hlt : (rand_r g p.targs.seed).1 % g_args.io_size_max < g_args.io_size_max :=
    Nat.mod_lt _ (by omega)
  have hd : toU64 ((g_args.file_size : Int) -
      (((rand_r g p.targs.seed).1 % g_args.io_size_max : Nat) : Int)) ≠ 0 := by
    rw [toU64_sub_of_le _ _ (by omega) h3]; omega
  have e1 : c_rem (rand_r g p.targs.seed).1 g_args.io_size_max =
      some ((rand_r g p.targs.seed).1 % g_args.io_size_max) := by
    rw [c_rem_eq_some]; exact ⟨by omega, rfl⟩
  have e2 : c_rem (rand_r g (rand_r g p.targs.seed).2).1
      (toU64 ((g_args.file_size : Int) -
        (((rand_r g p.targs.seed).1 % g_args.io_size_max : Nat) : Int))) =
      some ((rand_r g (rand_r g p.targs.seed).2).1 %
        toU64 ((g_args.file_size : Int) -
          (((rand_r g p.targs.seed).1 % g_args.io_size_max : Nat) : Int))) := by
    rw [c_rem_eq_some]; exact ⟨hd, rfl⟩
  refine ⟨_, _, hlt, e1, e2, ?_⟩
  unfold burst_io
  rw [if_neg (by simpa using hs)]
  simp only [e1, e2]

/-- With `1 ≤ io_size_max ≤ file_size < 2 ^ 64` a round never ends in a remainder by zero. -/
theorem burst_io_no_rem_by_zero (g_args : mrw_args_t) (g : Rng) (env : Env) (op : Op)
    (p : Proc) (h1 : 1 ≤ g_args.io_size_max) (h2 : g_args.io_size_max ≤ g_args.file_size)
    (h3 : g_args.file_size < 18446744073709551616)
    (h : (burst_io g_args g env op p).status = Status.rem_by_zero) :
    p.status = Status.rem_by_zero := by
  by_cases hs : p.status = Status.running
  · obtain ⟨size, off, _, _, _, e⟩ := burst_io_defined g_args g env op p h1 h2 h3 hs
    rw [e] at h
    rcases mrw_io_status_cases g_args env op size (toS64 off)
        (p.setSeed (rand_r g (rand_r g p.targs.seed).2).2) with h4 | ⟨d, h4⟩ | h4
    · rw [h4] at h; simp only [Proc.setSeed] at h; rw [hs] at h; cases h
    · rw [h4] at h; cases h
    · rw [h4] at h; cases h
  · rw [burst_io_of_stopped _ _ _ _ _ hs] at h; exact h

/-- With `1 ≤ io_size_max ≤ file_size < 2 ^ 64` and exact answers of the system calls a
running round leaves the process running. -/
theorem burst_io_running (g_args : mrw_args_t) (g : Rng) (env : Env) (op : Op) (p : Proc)
    (h1 : 1 ≤ g_args.io_size_max) (h2 : g_args.io_size_max ≤ g_args.file_size)
    (h3 : g_args.file_size < 18446744073709551616) (hx : env.exact)
    (hs : p.status = Status.running) :
    (burst_io g_args g env op p).status = Status.running := by
  obtain ⟨size, off, hsz, _, e2, e⟩ := burst_io_defined g_args g env op p h1 h2 h3 hs
  obtain ⟨hd, hoff⟩ := (c_rem_eq_some _ _ _).mp e2
  rw [toU64_sub_of_le _ _ (by omega) h3] at hd hoff
  have hr2 := rand_r_lt g (rand_r g p.targs.seed).2
  have hle : (rand_r g (rand_r g p.targs.seed).2).1 % (g_args.file_size - size) ≤
      (rand_r g (rand_r g p.targs.seed).2).1 := Nat.mod_le _ _
  have hlt : (rand_r g (rand_r g p.targs.seed).2).1 % (g_args.file_size - size) <
      g_args.file_size - size := Nat.mod_lt _ (by omega)
  have hin : copy_in_bounds g_args size (toS64 off) := by
    rw [toS64_of_lt _ (by omega)]
    exact Or.inr ⟨by omega, by omega, by omega⟩
  rw [e, mrw_io_status_exact _ _ _ _ _ _ (by omega) hx hin]
  exact hs

theorem burst_loop_no_rem_by_zero (g_args : mrw_args_t) (g : Rng) (env : Env) (op : Op)
    (n : Nat) (p : Proc) (h1 : 1 ≤ g_args.io_size_max)
    (h2 : g_args.io_size_max ≤ g_args.file_size)
    (h3 : g_args.file_size < 18446744073709551616)
    (h : (burst_loop g_args g env op n p).status = Status.rem_by_zero) :
    p.status = Status.rem_by_zero := by
  induction n generalizing p with
  | zero => exact h
  | succ n ih =>
    simp only [burst_loop] at h
    exact burst_io_no_rem_by_zero g_args g env op p h1 h2 h3 (ih _ h)

theorem burst_loop_running (g_args : mrw_args_t) (g : Rng) (env : Env) (op : Op) (n : Nat)
    (p : Proc) (h1 : 1 ≤ g_args.io_size_max) (h2 : g_args.io_size_max ≤ g_args.file_size)
    (h3 : g_args.file_size < 18446744073709551616) (hx : env.exact)
    (hs : p.status = Status.running) :
    (burst_loop g_args g env op n p).status = Status.running := by
  induction n generalizing p with
  | zero => exact hs
  | succ n ih =>
    simp only [burst_loop]
    exact ih _ (burst_io_running g_args g env op p h1 h2 h3 hx hs)


/-- The size of the transfer a round issues is the first draw of the round reduced modulo
`io_size_max`. -/
theorem burst_io_size (g_args : mrw_args_t) (g : Rng) (env : Env) (op : Op) (p : Proc)
    (t : Transfer) (h : (burst_io g_args g env op p).trace = p.trace ++ [t]) :
    t.size = (rand_r g p.targs.seed).1 % g_args.io_size_max := by
  have hne : p.trace ≠ p.trace ++ [t] := by
    intro e
    have := congrArg List.length e
    simp at this
  unfold burst_io at h
  by_cases hs : p.status = Status.running
  · rw [if_neg (by simpa using hs)] at h
    simp only at h
    cases h1 : c_rem (rand_r g p.targs.seed).1 g_args.io_size_max with
    | none => rw [h1] at h; exact absurd h hne
    | some size =>
      rw [h1] at h
      simp only at h
      rw [c_rem_eq_some] at h1
      cases h2 : c_rem (rand_r g (rand_r g p.targs.seed).2).1
          (toU64 ((g_args.file_size : Int) - (size : Int))) with
      | none => rw [h2] at h; exact absurd h hne
      | some off =>
        rw [h2] at h
        simp only at h
        rw [mrw_io_trace] at h
        have e := List.append_cancel_left h
        simp only [List.cons.injEq, and_true] at e
        rw [← e]
        exact h1.2
  · rw [if_pos (by simpa using hs)] at h
    exact absurd h hne

/-- The first transfer of the rounds of a burst, if there is one, has the size given by the
first draw. -/
theorem burst_loop_head (g_args : mrw_args_t) (g : Rng) (env : Env) (op : Op) (n : Nat)
    (p : Proc) (new : List Transfer) (t : Transfer)
    (h : (burst_loop g_args g env op n p).trace = p.trace ++ new) (ht : new.head? = some t) :
    t.size = (rand_r g p.targs.seed).1 % g_args.io_size_max := by
  cases n with
  | zero =>
    simp only [burst_loop] at h
    have : new = [] := by simpa using h
    rw [this] at ht; cases ht
  | succ n =>
    simp only [burst_loop] at h
    obtain ⟨new2, htr, _, _, _⟩ := burst_loop_spec g_args g env op n (burst_io g_args g env op p)
    rcases burst_io_spec g_args g env op p with ⟨h1, h2⟩ | ⟨_, u, h1, _, _, _, _⟩
    · rw [burst_loop_of_stopped _ _ _ _ _ _ h2, h1] at h
      have : new = [] := by simpa using h
      rw [this] at ht; cases ht
    · rw [htr, h1, List.append_assoc] at h
      have e := List.append_cancel_left h
      rw [← e] at ht
      simp only [List.singleton_append, List.head?_cons, Option.some.injEq] at ht
      rw [← ht]
      exact burst_io_size g_args g env op p u h1

/-! ### One burst -/

theorem mrw_do_io_burst_of_stopped (g_args : mrw_args_t) (g : Rng) (env : Env) (p : Proc)
    (h : p.status ≠ Status.running) : mrw_do_io_burst g_args g env p = p := by
  unfold mrw_do_io_burst
  rw [if_pos h]

theorem burst_type_trace (g_args : mrw_args_t) (g : Rng) (p : Proc) :
    (burst_type g_args g p).2.trace = p.trace ∧ (burst_type g_args g p).2.status = p.status := by
  unfold burst_type
  split <;> exact ⟨rfl, rfl⟩

/-- One burst: the transfers issued are appended to the trace, there are at most
`io_burst_count` of them, all in the direction decided at the start of the burst and all
satisfying `BurstDraw`; if the process is still running afterwards there are exactly
`io_burst_count`, the count is below `2 ^ 31`, and the generator has advanced by two draws
per transfer after the decision. -/
theorem mrw_do_io_burst_spec (g_args : mrw_args_t) (g : Rng) (env : Env) (p : Proc)
    (hs : p.status = Status.running) :
    ∃ new, (mrw_do_io_burst g_args g env p).trace = p.trace ++ new ∧
      new.length ≤ g_args.io_burst_count ∧
      (∀ t ∈ new, BurstDraw g_args (burst_op (burst_type g_args g p).1) t ∧
        t.mapped = g_args.is_mmap) ∧
      (∀ t, new.head? = some t →
        t.size = (rand_r g (burst_type g_args g p).2.targs.seed).1 % g_args.io_size_max) ∧
      ((mrw_do_io_burst g_args g env p).status = Status.running →
        new.length = g_args.io_burst_count ∧ g_args.io_burst_count < 2147483648 ∧
        (mrw_do_io_burst g_args g env p).targs.seed =
          skip g (2 * g_args.io_burst_count) (burst_type g_args g p).2.targs.seed) := by
  obtain ⟨new, htr, hlen, hall, hrun⟩ := burst_loop_spec g_args g env
    (burst_op (burst_type g_args g p).1) (min g_args.io_burst_count 2147483648)
    (burst_type g_args g p).2
  have hhead := burst_loop_head g_args g env (burst_op (burst_type g_args g p).1)
    (min g_args.io_burst_count 2147483648) (burst_type g_args g p).2 new
  rw [(burst_type_trace g_args g p).1] at htr hhead
  unfold mrw_do_io_burst
  rw [if_neg (by simpa using hs)]
  simp only
  split_ifs with hov
  · refine ⟨new, htr, by omega, hall, fun t ht => hhead t htr ht, fun h => ?_⟩
    simp [Proc.stop] at h
  · refine ⟨new, htr, by omega, hall, fun t ht => hhead t htr ht, fun h => ?_⟩
    obtain ⟨_, hl, hseed⟩ := hrun h
    have hc : g_args.io_burst_count < 2147483648 := by
      by_contra hc
      exact hov ⟨by omega, h⟩
    have hm : min g_args.io_burst_count 2147483648 = g_args.io_burst_count := by omega
    rw [hm] at hl hseed ⊢
    exact ⟨hl, hc, hseed⟩


theorem bursts_of_stopped (g_args : mrw_args_t) (g : Rng) (env : Env) (n : Nat) (p : Proc)
    (h : p.status ≠ Status.running) : bursts g_args g env n p = p := by
  induction n with
  | zero => rfl
  | succ n ih => simp only [bursts]; rw [mrw_do_io_burst_of_stopped _ _ _ _ h]; exact ih

/-- Any number of bursts in sequence: every transfer issued satisfies `BurstDraw` for some
direction. -/
theorem bursts_spec (g_args : mrw_args_t) (g : Rng) (env : Env) (n : Nat) (p : Proc) :
    ∃ new, (bursts g_args g env n p).trace = p.trace ++ new ∧
      ∀ t ∈ new, ∃ op, BurstDraw g_args op t := by
  induction n generalizing p with
  | zero => exact ⟨[], by simp [bursts], by simp⟩
  | succ n ih =>
    simp only [bursts]
    obtain ⟨new2, h2, hall2⟩ := ih (mrw_do_io_burst g_args g env p)
    by_cases hs : p.status = Status.running
    · obtain ⟨new1, h1, _, hall1, _⟩ := mrw_do_io_burst_spec g_args g env p hs
      refine ⟨new1 ++ new2, by rw [h2, h1, List.append_assoc], fun t ht => ?_⟩
      rcases List.mem_append.mp ht with ht | ht
      · exact ⟨_, (hall1 t ht).1⟩
      · exact hall2 t ht
    · refine ⟨new2, ?_, hall2⟩
      rw [h2, mrw_do_io_burst_of_stopped _ _ _ _ hs]

/-- The bounds that `BurstDraw` gives without any assumption on the configuration: the offset
is non-negative, below `2 ^ 31` and below the 64-bit difference `file_size - size`, and the
end of the range is at most `2 ^ 31 + io_size_max - 2`. -/
theorem BurstDraw.generator_bound (g_args : mrw_args_t) (op : Op) (t : Transfer)
    (h : BurstDraw g_args op t) :
    0 ≤ t.offset ∧ t.offset < 2147483648 ∧
    t.offset < (toU64 ((g_args.file_size : Int) - (t.size : Int)) : Int) ∧
    t.size < g_args.io_size_max ∧
    t.offset + (t.size : Int) ≤ ((2147483648 + g_args.io_size_max - 2 : Nat) : Int) := by
  obtain ⟨_, r1, r2, h1, h2, h3, h4, h5, h6⟩ := h
  have hs : t.size < g_args.io_size_max := by rw [h4]; exact Nat.mod_lt _ (by omega)
  have hlt : r2 % toU64 ((g_args.file_size : Int) - (t.size : Int)) <
      toU64 ((g_args.file_size : Int) - (t.size : Int)) := Nat.mod_lt _ (by omega)
  have hle : r2 % toU64 ((g_args.file_size : Int) - (t.size : Int)) ≤ r2 := Nat.mod_le _ _
  rw [toS64_of_lt _ (by omega)] at h6
  rw [h6]
  refine ⟨by omega, by omega, by omega, hs, by omega⟩

/-- The bounds that `BurstDraw` gives when `io_size_max < file_size < 2 ^ 64`: no wrap-around
in `file_size - size`, so the offset is a draw reduced modulo the true difference and the
range ends inside the file. -/
theorem BurstDraw.in_file (g_args : mrw_args_t) (op : Op) (t : Transfer)
    (h : BurstDraw g_args op t) (h2 : g_args.io_size_max < g_args.file_size)
    (h3 : g_args.file_size < 18446744073709551616) :
    t.size < g_args.io_size_max ∧ 0 ≤ t.offset ∧
    t.offset + (t.size : Int) < (g_args.file_size : Int) ∧
    ∃ r1 r2 : Nat, r1 < 2147483648 ∧ r2 < 2147483648 ∧ t.size = r1 % g_args.io_size_max ∧
      t.offset = ((r2 % (g_args.file_size - t.size) : Nat) : Int) := by
  obtain ⟨hb0, hb1, hb2, hb3, _⟩ := BurstDraw.generator_bound g_args op t h
  obtain ⟨_, r1, r2, h1, h2', _, h4, _, h6⟩ := h
  have e : toU64 ((g_args.file_size : Int) - (t.size : Int)) = g_args.file_size - t.size :=
    toU64_sub_of_le _ _ (by omega) h3
  rw [e] at hb2 h6
  have hle : r2 % (g_args.file_size - t.size) ≤ r2 := Nat.mod_le _ _
  rw [toS64_of_lt _ (by omega)] at h6
  exact ⟨hb3, hb0, by omega, r1, r2, h1, h2', h4, h6⟩


/-- With `1 ≤ io_size_max ≤ file_size < 2 ^ 64`, a burst count below `2 ^ 31` and exact
answers of the system calls, a burst called in a running process returns. -/
theorem mrw_do_io_burst_running (g_args : mrw_args_t) (g : Rng) (env : Env) (p : Proc)
    (h1 : 1 ≤ g_args.io_size_max) (h2 : g_args.io_size_max ≤ g_args.file_size)
    (h3 : g_args.file_size < 18446744073709551616) (hc : g_args.io_burst_count < 2147483648)
    (hx : env.exact) (hs : p.status = Status.running) :
    (mrw_do_io_burst g_args g env p).status = Status.running := by
  have hrun := burst_loop_running g_args g env (burst_op (burst_type g_args g p).1)
    (min g_args.io_burst_count 2147483648) (burst_type g_args g p).2 h1 h2 h3 hx
    (by rw [(burst_type_trace g_args g p).2]; exact hs)
  unfold mrw_do_io_burst
  rw [if_neg (by simpa using hs)]
  simp only
  rw [if_neg (by omega)]
  exact hrun

/-! ### Claims on the pairs drawn in a burst -/

/-- C1: for every configuration in the range of its C types with
`file_size > io_size_max >= 1`, every generator, every answer of the system and every state
of the worker, each transfer that one call of `mrw_do_io_burst` issues has a size that is a
draw modulo `io_size_max` and an offset that is a draw modulo `file_size - size` (no
wrap-around), with `0 <= size < io_size_max`, `0 <= offset` and
`offset + size <= file_size`; and when the transfers are exact and the count is an `int` the
call issues `io_burst_count` such transfers. -/
theorem C1_burst_pairs_within_file (g_args : mrw_args_t) (g : Rng) (env : Env) (p : Proc)
    (hr : g_args.InRange) (h1 : 1 ≤ g_args.io_size_max)
    (h2 : g_args.io_size_max < g_args.file_size) :
    ∃ new, (mrw_do_io_burst g_args g env p).trace = p.trace ++ new ∧
      (∀ t ∈ new, t.size < g_args.io_size_max ∧ 0 ≤ t.offset ∧
        t.offset + (t.size : Int) ≤ (g_args.file_size : Int) ∧
        ∃ r1 r2 : Nat, r1 < 2147483648 ∧ r2 < 2147483648 ∧
          t.size = r1 % g_args.io_size_max ∧
          t.offset = ((r2 % (g_args.file_size - t.size) : Nat) : Int)) ∧
      (p.status = Status.running → env.exact → g_args.io_burst_count < 2147483648 →
        new.length = g_args.io_burst_count) := by
  by_cases hs : p.status = Status.running
  · obtain ⟨new, htr, _, hall, _, hrun⟩ := mrw_do_io_burst_spec g_args g env p hs
    refine ⟨new, htr, fun t ht => ?_, fun _ hx hc => ?_⟩
    · obtain ⟨a, b, c, d⟩ := BurstDraw.in_file g_args _ t (hall t ht).1 h2 hr.1
      exact ⟨a, b, by omega, d⟩
    · exact (hrun (mrw_do_io_burst_running g_args g env p h1 (by omega) hr.1 hc hx hs)).1
  · refine ⟨[], ?_, by simp, fun h => absurd h hs⟩
    rw [mrw_do_io_burst_of_stopped _ _ _ _ hs, List.append_nil]

/-- Evaluation of C1 on the small configuration. -/
theorem C1_burst_pairs_within_file_witness :
    ex_args.InRange ∧ 1 ≤ ex_args.io_size_max ∧ ex_args.io_size_max < ex_args.file_size ∧
    ∃ new, (mrw_do_io_burst ex_args ex_rng ex_env (Proc.spawn ex_targs)).trace =
        (Proc.spawn ex_targs).trace ++ new ∧
      (∀ t ∈ new, t.size < ex_args.io_size_max ∧ 0 ≤ t.offset ∧
        t.offset + (t.size : Int) ≤ (ex_args.file_size : Int) ∧
        ∃ r1 r2 : Nat, r1 < 2147483648 ∧ r2 < 2147483648 ∧
          t.size = r1 % ex_args.io_size_max ∧
          t.offset = ((r2 % (ex_args.file_size - t.size) : Nat) : Int)) ∧
      ((Proc.spawn ex_targs).status = Status.running → ex_env.exact →
        ex_args.io_burst_count < 2147483648 → new.length = ex_args.io_burst_count) :=
  ⟨by decide, by decide, by decide,
    C1_burst_pairs_within_file ex_args ex_rng ex_env (Proc.spawn ex_targs)
      (by decide) (by decide) (by decide)⟩

/-- C9: for every configuration, generator, answer of the system and state of a worker, each
transfer issued by any number of calls of `mrw_do_io_burst` has an offset that is
non-negative and below both `2 ^ 31` and the 64-bit difference `file_size - size`, so its
byte range ends at or before `2 ^ 31 + io_size_max - 2`; hence when
`file_size > 2 ^ 31 + io_size_max - 2` there is a byte of the file that no burst transfer of
any worker includes. -/
theorem C9_burst_offsets_below_generator_range (g_args : mrw_args_t) :
    (∀ (g : Rng) (env : Env) (n : Nat) (p : Proc), ∃ new,
      (bursts g_args g env n p).trace = p.trace ++ new ∧
      ∀ t ∈ new, 0 ≤ t.offset ∧
        t.offset < min (2147483648 : Int)
          (toU64 ((g_args.file_size : Int) - (t.size : Int)) : Int) ∧
        t.offset + (t.size : Int) ≤ ((2147483648 + g_args.io_size_max - 2 : Nat) : Int)) ∧
    (2147483648 + g_args.io_size_max - 2 < g_args.file_size →
      ∃ b, b < g_args.file_size ∧
        ∀ (g : Rng) (env : Env) (n : Nat) (p : Proc) (new : List Transfer),
          (bursts g_args g env n p).trace = p.trace ++ new → ∀ t ∈ new, ¬ t.covers b) := by
  have key : ∀ (g : Rng) (env : Env) (n : Nat) (p : Proc), ∃ new,
      (bursts g_args g env n p).trace = p.trace ++ new ∧
      ∀ t ∈ new, 0 ≤ t.offset ∧
        t.offset < min (2147483648 : Int)
          (toU64 ((g_args.file_size : Int) - (t.size : Int)) : Int) ∧
        t.offset + (t.size : Int) ≤ ((2147483648 + g_args.io_size_max - 2 : Nat) : Int) := by
    intro g env n p
    obtain ⟨new, htr, hall⟩ := bursts_spec g_args g env n p
    refine ⟨new, htr, fun t ht => ?_⟩
    obtain ⟨op, hd⟩ := hall t ht
    obtain ⟨a, b, c, _, e⟩ := BurstDraw.generator_bound g_args op t hd
    exact ⟨a, lt_min b c, e⟩
  refine ⟨key, fun hbig => ⟨2147483648 + g_args.io_size_max - 2, hbig, ?_⟩⟩
  intro g env n p new htr t ht hcov
  obtain ⟨new2, htr2, hall⟩ := key g env n p
  rw [htr] at htr2
  have e := List.append_cancel_left htr2
  rw [e] at ht
  have := (hall t ht).2.2
  unfold Transfer.covers at hcov
  omega

/-- Evaluation of C9 on a configuration with a file of 4 GiB. -/
theorem C9_burst_offsets_below_generator_range_witness :
    2147483648 + ex_big_args.io_size_max - 2 < ex_big_args.file_size ∧
    ∃ b, b < ex_big_args.file_size ∧
      ∀ (g : Rng) (env : Env) (n : Nat) (p : Proc) (new : List Transfer),
        (bursts ex_big_args g env n p).trace = p.trace ++ new → ∀ t ∈ new, ¬ t.covers b :=
  ⟨by decide, (C9_burst_offsets_below_generator_range ex_big_args).2 (by decide)⟩


/-! ### Remainders by zero -/

theorem mrw_do_io_burst_no_rem_by_zero (g_args : mrw_args_t) (g : Rng) (env : Env) (p : Proc)
    (h1 : 1 ≤ g_args.io_size_max) (h2 : g_args.io_size_max ≤ g_args.file_size)
    (h3 : g_args.file_size < 18446744073709551616)
    (h : (mrw_do_io_burst g_args g env p).status = Status.rem_by_zero) :
    p.status = Status.rem_by_zero := by
  by_cases hs : p.status = Status.running
  · unfold mrw_do_io_burst at h
    rw [if_neg (by simpa using hs)] at h
    simp only at h
    split_ifs at h with hov
    · simp [Proc.stop] at h
    · have := burst_loop_no_rem_by_zero g_args g env _ _ _ h1 h2 h3 h
      rw [(burst_type_trace g_args g p).2] at this
      exact this
  · rw [mrw_do_io_burst_of_stopped _ _ _ _ hs] at h; exact h

theorem bursts_no_rem_by_zero (g_args : mrw_args_t) (g : Rng) (env : Env) (n : Nat) (p : Proc)
    (h1 : 1 ≤ g_args.io_size_max) (h2 : g_args.io_size_max ≤ g_args.file_size)
    (h3 : g_args.file_size < 18446744073709551616)
    (h : (bursts g_args g env n p).status = Status.rem_by_zero) :
    p.status = Status.rem_by_zero := by
  induction n generalizing p with
  | zero => exact h
  | succ n ih =>
    simp only [bursts] at h
    exact mrw_do_io_burst_no_rem_by_zero g_args g env p h1 h2 h3 (ih _ h)

/-- The access to the last chunk when the size draw is defined: one transfer of that size
at the offset `file_size - 1 - size` (64-bit unsigned, converted to `off_t`), a write for
`MRW_WRITE` and a read otherwise. -/
theorem io_stream_tail_eq (g_args : mrw_args_t) (g : Rng) (env : Env) (p : Proc)
    (hs : p.status = Status.running) (hl : g_args.is_last_chunk = true)
    (h1 : 1 ≤ g_args.io_size_max) :
    io_stream_tail g_args g env p =
      mrw_io g_args env (if g_args.io_type = MRW_WRITE then Op.write else Op.read)
        ((rand_r g p.targs.seed).1 % g_args.io_size_max)
        (toS64 (toU64 ((g_args.file_size : Int) - 1 -
          (((rand_r g p.targs.seed).1 % g_args.io_size_max : Nat) : Int))))
        (p.setSeed (rand_r g p.targs.seed).2) := by
  have e1 : c_rem (rand_r g p.targs.seed).1 g_args.io_size_max =
      some ((rand_r g p.targs.seed).1 % g_args.io_size_max) := by
    rw [c_rem_eq_some]; exact ⟨by omega, rfl⟩
  unfold io_stream_tail
  rw [if_neg (by simpa using hs), if_pos hl]
  simp only [e1]
  split_ifs <;> rfl

theorem io_stream_tail_no_rem_by_zero (g_args : mrw_args_t) (g : Rng) (env : Env) (p : Proc)
    (h1 : 1 ≤ g_args.io_size_max)
    (h : (io_stream_tail g_args g env p).status = Status.rem_by_zero) :
    p.status = Status.rem_by_zero := by
  by_cases hs : p.status = Status.running
  · cases hl : g_args.is_last_chunk with
    | false =>
      unfold io_stream_tail at h
      rw [if_neg (by simpa using hs), hl] at h
      simpa using h
    | true =>
      rw [io_stream_tail_eq g_args g env p hs hl h1] at h
      rcases mrw_io_status_cases g_args env
          (if g_args.io_type = MRW_WRITE then Op.write else Op.read)
          ((rand_r g p.targs.seed).1 % g_args.io_size_max)
          (toS64 (toU64 ((g_args.file_size : Int) - 1 -
            (((rand_r g p.targs.seed).1 % g_args.io_size_max : Nat) : Int))))
          (p.setSeed (rand_r g p.targs.seed).2) with h4 | ⟨d, h4⟩ | h4
      · rw [h4] at h; simp only [Proc.setSeed] at h; rw [hs] at h; cases h
      · rw [h4] at h; cases h
      · rw [h4] at h; cases h
  · unfold io_stream_tail at h
    rw [if_pos (by simpa using hs)] at h
    exact h

/-- With `io_size_max = 0` a running round stops at its size draw, before any transfer. -/
theorem burst_io_zero (g_args : mrw_args_t) (g : Rng) (env : Env) (op : Op) (p : Proc)
    (h0 : g_args.io_size_max = 0) (hs : p.status = Status.running) :
    (burst_io g_args g env op p).status = Status.rem_by_zero ∧
    (burst_io g_args g env op p).trace = p.trace := by
  have e1 : c_rem (rand_r g p.targs.seed).1 g_args.io_size_max = none := by
    rw [c_rem_eq_none]; exact h0
  unfold burst_io
  rw [if_neg (by simpa using hs)]
  simp only [e1]
  exact ⟨rfl, rfl⟩

theorem mrw_do_io_burst_zero (g_args : mrw_args_t) (g : Rng) (env : Env) (p : Proc)
    (h0 : g_args.io_size_max = 0) (hc : 1 ≤ g_args.io_burst_count)
    (hs : p.status = Status.running) :
    (mrw_do_io_burst g_args g env p).status = Status.rem_by_zero ∧
    (mrw_do_io_burst g_args g env p).trace = p.trace := by
  obtain ⟨m, hm⟩ : ∃ m, min g_args.io_burst_count 2147483648 = m + 1 :=
    ⟨min g_args.io_burst_count 2147483648 - 1, by omega⟩
  have hs2 : (burst_type g_args g p).2.status = Status.running := by
    rw [(burst_type_trace g_args g p).2]; exact hs
  obtain ⟨z1, z2⟩ := burst_io_zero g_args g env (burst_op (burst_type g_args g p).1)
    (burst_type g_args g p).2 h0 hs2
  have hl : burst_loop g_args g env (burst_op (burst_type g_args g p).1)
      (min g_args.io_burst_count 2147483648) (burst_type g_args g p).2 =
      burst_io g_args g env (burst_op (burst_type g_args g p).1) (burst_type g_args g p).2 := by
    rw [hm]
    simp only [burst_loop]
    exact burst_loop_of_stopped _ _ _ _ _ _ (by rw [z1]; simp)
  unfold mrw_do_io_burst
  rw [if_neg (by simpa using hs)]
  simp only
  rw [hl, if_neg (by rw [z1]; simp)]
  exact ⟨z1, by rw [z2, (burst_type_trace g_args g p).1]⟩

theorem io_stream_tail_zero (g_args : mrw_args_t) (g : Rng) (env : Env) (p : Proc)
    (h0 : g_args.io_size_max = 0) (hl : g_args.is_last_chunk = true)
    (hs : p.status = Status.running) :
    (io_stream_tail g_args g env p).status = Status.rem_by_zero ∧
    (io_stream_tail g_args g env p).trace = p.trace := by
  have e1 : c_rem (rand_r g p.targs.seed).1 g_args.io_size_max = none := by
    rw [c_rem_eq_none]; exact h0
  unfold io_stream_tail
  rw [if_neg (by simpa using hs), if_pos hl]
  simp only [e1]
  exact ⟨rfl, rfl⟩

/-- C10: for every configuration in the range of its C types with `io_size_max >= 1` and
`file_size >= io_size_max`, every generator and every running state, the divisor
`io_size_max` of the size draw and the divisor `file_size - size` of the offset draw of a
round are non-zero, and neither any number of bursts nor the access to the last chunk stops
on a remainder by zero; whereas with `io_size_max = 0` a round, a burst of at least one round
and the access to the last chunk stop on a remainder by zero at their first size draw, before
any transfer. -/
theorem C10_no_remainder_by_zero (g_args : mrw_args_t) (g : Rng) (env : Env) (p : Proc)
    (hs : p.status = Status.running) :
    (g_args.InRange → 1 ≤ g_args.io_size_max → g_args.io_size_max ≤ g_args.file_size →
      (∀ op, ∃ size off : Nat, g_args.io_size_max ≠ 0 ∧
        toU64 ((g_args.file_size : Int) - (size : Int)) ≠ 0 ∧
        c_rem (rand_r g p.targs.seed).1 g_args.io_size_max = some size ∧
        c_rem (rand_r g (rand_r g p.targs.seed).2).1
          (toU64 ((g_args.file_size : Int) - (size : Int))) = some off ∧
        (burst_io g_args g env op p).status ≠ Status.rem_by_zero) ∧
      (∀ n, (bursts g_args g env n p).status ≠ Status.rem_by_zero) ∧
      (io_stream_tail g_args g env p).status ≠ Status.rem_by_zero) ∧
    (g_args.io_size_max = 0 →
      (∀ op, (burst_io g_args g env op p).status = Status.rem_by_zero ∧
        (burst_io g_args g env op p).trace = p.trace) ∧
      (1 ≤ g_args.io_burst_count →
        (mrw_do_io_burst g_args g env p).status = Status.rem_by_zero ∧
        (mrw_do_io_burst g_args g env p).trace = p.trace) ∧
      (g_args.is_last_chunk = true →
        (io_stream_tail g_args g env p).status = Status.rem_by_zero ∧
        (io_stream_tail g_args g env p).trace = p.trace)) := by
  have hne : p.status ≠ Status.rem_by_zero := by rw [hs]; simp
  refine ⟨fun hr h1 h2 => ⟨fun op => ?_, fun n h => ?_, fun h => ?_⟩,
    fun h0 => ⟨fun op => burst_io_zero g_args g env op p h0 hs,
      fun hc => mrw_do_io_burst_zero g_args g env p h0 hc hs,
      fun hl => io_stream_tail_zero g_args g env p h0 hl hs⟩⟩
  · obtain ⟨size, off, _, e1, e2, _⟩ := burst_io_defined g_args g env op p h1 h2 hr.1 hs
    refine ⟨size, off, by omega, ?_, e1, e2, fun h => ?_⟩
    · exact ((c_rem_eq_some _ _ _).mp e2).1
    · exact hne (burst_io_no_rem_by_zero g_args g env op p h1 h2 hr.1 h)
  · exact hne (bursts_no_rem_by_zero g_args g env n p h1 h2 hr.1 h)
  · exact hne (io_stream_tail_no_rem_by_zero g_args g env p h1 h)


/-- Evaluation of C10 on the small configuration and on the same configuration with
`io_size_max = 0`. -/
theorem C10_no_remainder_by_zero_witness :
    ((∀ n, (bursts ex_args ex_rng ex_env n (Proc.spawn ex_targs)).status ≠
        Status.rem_by_zero) ∧
      (io_stream_tail ex_args ex_rng ex_env (Proc.spawn ex_targs)).status ≠
        Status.rem_by_zero) ∧
    ((mrw_do_io_burst ex_zero_args ex_rng ex_env (Proc.spawn ex_targs)).status =
        Status.rem_by_zero ∧
      (io_stream_tail ex_zero_args ex_rng ex_env (Proc.spawn ex_targs)).status =
        Status.rem_by_zero) :=
  ⟨((C10_no_remainder_by_zero ex_args ex_rng ex_env (Proc.spawn ex_targs) rfl).1
      (by decide) (by decide) (by decide)).2,
   ⟨(((C10_no_remainder_by_zero ex_zero_args ex_rng ex_env (Proc.spawn ex_targs) rfl).2
      rfl).2.1 (by decide)).1,
    (((C10_no_remainder_by_zero ex_zero_args ex_rng ex_env (Proc.spawn ex_targs) rfl).2
      rfl).2.2 rfl).1⟩⟩

/-! ### The timed loop and the access to the last chunk -/

/-- When the timed loop ends it has run some number of bursts. -/
theorem io_stream_loop_eq_bursts (g_args : mrw_args_t) (g : Rng) (env : Env) (start : Int)
    (fuel k : Nat) (p q : Proc) (h : io_stream_loop g_args g env start fuel k p = some q) :
    ∃ n, q = bursts g_args g env n p := by
  induction fuel generalizing k p with
  | zero => simp [io_stream_loop] at h
  | succ fuel ih =>
    simp only [io_stream_loop] at h
    split_ifs at h with h1 h2
    · exact ⟨0, by simpa [bursts] using h.symm⟩
    · obtain ⟨n, hn⟩ := ih _ _ h
      exact ⟨n + 1, by simpa [bursts] using hn⟩
    · exact ⟨0, by simpa [bursts] using h.symm⟩

/-- The timed loop ends as soon as the clock has reached the run time: with an answer of
`time` at or after the deadline among the first `fuel` checks, the loop returns. -/
theorem io_stream_loop_returns (g_args : mrw_args_t) (g : Rng) (env : Env) (start : Int)
    (fuel k : Nat) (p : Proc) (j : Nat) (hj : j < fuel)
    (hd : ¬ env.clock (k + j) - start < (g_args.runtime_s : Int)) :
    ∃ q, io_stream_loop g_args g env start fuel k p = some q := by
  induction fuel generalizing k p j with
  | zero => omega
  | succ fuel ih =>
    simp only [io_stream_loop]
    split_ifs with h1 h2
    · exact ⟨_, rfl⟩
    · cases j with
      | zero => exact absurd h2 (by simpa using hd)
      | succ j =>
        exact ih (k + 1) _ j (by omega) (by
          have : k + 1 + j = k + (j + 1) := by omega
          rw [this]; exact hd)
    · exact ⟨_, rfl⟩

/-- With a run time of zero and a clock that does not run backwards at the first check, the
timed loop runs no burst. -/
theorem io_stream_loop_zero (g_args : mrw_args_t) (g : Rng) (env : Env) (start : Int)
    (fuel k : Nat) (p : Proc) (h0 : g_args.runtime_s = 0) (hc : start ≤ env.clock k) :
    io_stream_loop g_args g env start (fuel + 1) k p = some p := by
  simp only [io_stream_loop]
  split_ifs with h1 h2
  · rfl
  · rw [h0] at h2; simp at h2; omega
  · rfl

theorem io_stream_init_trace (g_args : mrw_args_t) (g : Rng) (env : Env)
    (targs : thread_args_t) :
    (io_stream_init g_args g env (Proc.spawn targs)).trace = [] := by
  have ho : ∀ p : Proc, (io_stream_open g_args env p).trace = p.trace := by
    intro p
    unfold io_stream_open
    by_cases hs : p.status = Status.running
    · rw [if_neg (by simpa using hs)]
      cases (mrw_file_open g_args env.sys_open).out with
      | exit c m => rfl
      | ret fd =>
        cases g_args.is_mmap with
        | false => rfl
        | true => cases env.sys_mmap <;> rfl
    · rw [if_pos (by simpa using hs)]
  unfold io_stream_init
  simp only [Proc.spawn, Proc.setSeed, Proc.stop]
  split_ifs <;> simp [ho, Proc.stop]

theorem io_stream_end_trace (p : Proc) : (io_stream_end p).trace = p.trace := by
  unfold io_stream_end
  split_ifs <;> rfl

/-- The access to the last chunk in a running worker, for `file_size > io_size_max >= 1`:
exactly one transfer is appended; its size is one draw reduced modulo `io_size_max`, its
offset the `off_t` value of `file_size - 1 - size`, which does not wrap around as an unsigned
number; it is a write for `MRW_WRITE` and a read otherwise; the generator has advanced by
one draw. -/
theorem io_stream_tail_spec (g_args : mrw_args_t) (g : Rng) (env : Env) (p : Proc)
    (hs : p.status = Status.running) (hl : g_args.is_last_chunk = true)
    (h1 : 1 ≤ g_args.io_size_max) (h2 : g_args.io_size_max < g_args.file_size)
    (h3 : g_args.file_size < 18446744073709551616) :
    ∃ t, (io_stream_tail g_args g env p).trace = p.trace ++ [t] ∧
      t.size = (rand_r g p.targs.seed).1 % g_args.io_size_max ∧
      t.size < g_args.io_size_max ∧
      t.offset = toS64 (g_args.file_size - 1 - t.size) ∧
      t.op = (if g_args.io_type = MRW_WRITE then Op.write else Op.read) ∧
      t.mapped = g_args.is_mmap ∧
      (io_stream_tail g_args g env p).targs.seed = (rand_r g p.targs.seed).2 := by
  have hlt : (rand_r g p.targs.seed).1 % g_args.io_size_max < g_args.io_size_max :=
    Nat.mod_lt _ (by omega)
  have e : toU64 ((g_args.file_size : Int) - 1 -
      (((rand_r g p.targs.seed).1 % g_args.io_size_max : Nat) : Int)) =
      g_args.file_size - 1 - (rand_r g p.targs.seed).1 % g_args.io_size_max := by
    unfold toU64; omega
  rw [io_stream_tail_eq g_args g env p hs hl h1, mrw_io_trace, mrw_io_targs, e]
  exact ⟨_, rfl, rfl, hlt, rfl, rfl, rfl, rfl⟩


/-- A file initialisation that succeeds has passed a length that is not negative to
`ftruncate`: the file size is below `2 ^ 63`. -/
theorem mrw_file_init_running (g_args : mrw_args_t) (env : Env) (hr : g_args.InRange)
    (h : mrw_file_init g_args env = Status.running) :
    g_args.file_size < 9223372036854775808 := by
  by_contra hge
  have hneg : toS64 g_args.file_size < 0 := by
    have := hr.1
    unfold toS64
    rw [Nat.mod_eq_of_lt this, if_neg (by omega)]
    omega
  unfold mrw_file_init at h
  cases hout : (mrw_file_open_internal g_args env.sys_open O_RDWR).out with
  | exit code msg => rw [hout] at h; cases h
  | ret fd =>
    rw [hout] at h
    simp only [ftruncate, if_pos hneg] at h
    rw [if_pos (by decide)] at h
    cases h

/-- The main thread creates a worker only after the file initialisation has succeeded. -/
theorem main_run_spawned (g_args : mrw_args_t) (env : Env) (uninit : thread_args_t)
    (h : (main_run g_args env uninit).spawned ≠ []) :
    mrw_file_init g_args env = Status.running := by
  unfold main_run at h
  cases hi : mrw_file_init g_args env <;> first | rfl | (rw [hi] at h; exact absurd rfl h)

/-- C7: for every configuration in the range of its C types with
`file_size > io_size_max >= 1` that a worker can receive, that is, one whose file
initialisation in `main` has succeeded, once the timed loop of `io_stream` has exited in a
running worker, `io_stream` returns; with `is_last_chunk` enabled it has performed exactly
one more transfer, of size one draw modulo `io_size_max` at offset `file_size - 1 - size`, a
write if `io_type` is `MRW_WRITE` and a read otherwise, with `0 <= size < io_size_max`,
`0 <= offset` and `offset + size <= file_size`; with `is_last_chunk` disabled it has
performed no transfer after the loop. -/
theorem C7_tail_touch_transfer (g_args : mrw_args_t) (g : Rng) (env menv : Env) (fuel : Nat)
    (targs : thread_args_t) (q : Proc) (hr : g_args.InRange) (h1 : 1 ≤ g_args.io_size_max)
    (h2 : g_args.io_size_max < g_args.file_size)
    (hinit : mrw_file_init g_args menv = Status.running)
    (hq : io_stream_timed g_args g env fuel targs = some q) (hs : q.status = Status.running) :
    ∃ r, io_stream g_args g env fuel targs = some r ∧
      (g_args.is_last_chunk = true → ∃ t, r.trace = q.trace ++ [t] ∧
        t.size = (rand_r g q.targs.seed).1 % g_args.io_size_max ∧
        t.offset = (g_args.file_size : Int) - 1 - (t.size : Int) ∧
        t.op = (if g_args.io_type = MRW_WRITE then Op.write else Op.read) ∧
        t.size < g_args.io_size_max ∧ 0 ≤ t.offset ∧
        t.offset + (t.size : Int) ≤ (g_args.file_size : Int)) ∧
      (g_args.is_last_chunk = false → r.trace = q.trace) := by
  have h63 := mrw_file_init_running g_args menv hr hinit
  refine ⟨io_stream_end (io_stream_tail g_args g env q), by simp [io_stream, hq], ?_, ?_⟩
  · intro hl
    obtain ⟨t, htr, hsz, hlt, hoff, hop, _, _⟩ :=
      io_stream_tail_spec g_args g env q hs hl h1 h2 hr.1
    rw [toS64_of_lt _ (by omega)] at hoff
    refine ⟨t, by rw [io_stream_end_trace, htr], hsz, by omega, hop, hlt, by omega, by omega⟩
  · intro hl
    rw [io_stream_end_trace]
    unfold io_stream_tail
    rw [if_neg (by simpa using hs), hl]
    simp

/-- Evaluation of C7 on the small configuration with a run time of zero. -/
theorem C7_tail_touch_transfer_witness :
    ex_args0.InRange ∧ 1 ≤ ex_args0.io_size_max ∧ ex_args0.io_size_max < ex_args0.file_size ∧
    mrw_file_init ex_args0 ex_env = Status.running ∧
    ∃ r, io_stream ex_args0 ex_rng ex_env 1 ex_targs = some r ∧
      (ex_args0.is_last_chunk = true → ∃ t,
        r.trace = (io_stream_init ex_args0 ex_rng ex_env (Proc.spawn ex_targs)).trace ++ [t] ∧
        t.size = (rand_r ex_rng
          (io_stream_init ex_args0 ex_rng ex_env (Proc.spawn ex_targs)).targs.seed).1 %
            ex_args0.io_size_max ∧
        t.offset = (ex_args0.file_size : Int) - 1 - (t.size : Int) ∧
        t.op = (if ex_args0.io_type = MRW_WRITE then Op.write else Op.read) ∧
        t.size < ex_args0.io_size_max ∧ 0 ≤ t.offset ∧
        t.offset + (t.size : Int) ≤ (ex_args0.file_size : Int)) ∧
      (ex_args0.is_last_chunk = false →
        r.trace = (io_stream_init ex_args0 ex_rng ex_env (Proc.spawn ex_targs)).trace) :=
  ⟨by decide, by decide, by decide, by decide,
    C7_tail_touch_transfer ex_args0 ex_rng ex_env ex_env 1 ex_targs
      (io_stream_init ex_args0 ex_rng ex_env (Proc.spawn ex_targs))
      (by decide) (by decide) (by decide) (by decide) (by decide) (by decide)⟩


/-! ### The last byte of the file -/

/-- A transfer of a burst ends before the last byte when `io_size_max < file_size`. -/
theorem BurstDraw.not_covers_last (g_args : mrw_args_t) (op : Op) (t : Transfer)
    (h : BurstDraw g_args op t) (h2 : g_args.io_size_max < g_args.file_size)
    (h3 : g_args.file_size < 18446744073709551616) :
    ¬ t.covers (g_args.file_size - 1) := by
  obtain ⟨_, _, hlt, _⟩ := BurstDraw.in_file g_args op t h h2 h3
  unfold Transfer.covers
  omega

/-- The access to the last chunk never includes the last byte: its range is
`[file_size - 1 - size, file_size - 1)`. -/
theorem io_stream_tail_not_covers_last (g_args : mrw_args_t) (g : Rng) (env : Env) (q : Proc)
    (h1 : 1 ≤ g_args.io_size_max) (h2 : g_args.io_size_max < g_args.file_size)
    (h3 : g_args.file_size < 18446744073709551616) :
    ∀ t ∈ (io_stream_tail g_args g env q).trace,
      t ∈ q.trace ∨ ¬ t.covers (g_args.file_size - 1) := by
  intro t ht
  by_cases hs : q.status = Status.running
  · cases hl : g_args.is_last_chunk with
    | false =>
      unfold io_stream_tail at ht
      rw [if_neg (by simpa using hs), hl] at ht
      exact Or.inl (by simpa using ht)
    | true =>
      obtain ⟨u, htr, _, hlt, hoff, _⟩ := io_stream_tail_spec g_args g env q hs hl h1 h2 h3
      rw [htr] at ht
      rcases List.mem_append.mp ht with ht | ht
      · exact Or.inl ht
      · right
        have e : t = u := by simpa using ht
        rw [e]
        unfold Transfer.covers
        rw [hoff]
        unfold toS64
        have hm : (g_args.file_size - 1 - u.size) % 18446744073709551616 =
            g_args.file_size - 1 - u.size := Nat.mod_eq_of_lt (by omega)
        rw [hm]
        split <;> omega
  · unfold io_stream_tail at ht
    rw [if_pos (by simpa using hs)] at ht
    exact Or.inl ht

/-- No transfer of a worker, whether of a burst or of the access to the last chunk, includes
the byte `file_size - 1`, for any configuration with `file_size > io_size_max >= 1`. -/
theorem io_stream_never_covers_last (g_args : mrw_args_t) (g : Rng) (env : Env) (fuel : Nat)
    (targs : thread_args_t) (r : Proc) (hr : g_args.InRange) (h1 : 1 ≤ g_args.io_size_max)
    (h2 : g_args.io_size_max < g_args.file_size)
    (h : io_stream g_args g env fuel targs = some r) :
    ∀ t ∈ r.trace, ¬ t.covers (g_args.file_size - 1) := by
  unfold io_stream at h
  cases hq : io_stream_timed g_args g env fuel targs with
  | none => rw [hq] at h; cases h
  | some q =>
    rw [hq] at h
    have h : io_stream_end (io_stream_tail g_args g env q) = r := by simpa using h
    unfold io_stream_timed at hq
    obtain ⟨n, hn⟩ := io_stream_loop_eq_bursts _ _ _ _ _ _ _ _ hq
    obtain ⟨new, htr, hall⟩ := bursts_spec g_args g env n
      (io_stream_init g_args g env (Proc.spawn targs))
    rw [io_stream_init_trace, List.nil_append, ← hn] at htr
    intro t ht
    rw [← h, io_stream_end_trace] at ht
    rcases io_stream_tail_not_covers_last g_args g env q h1 h2 hr.1 t ht with ht | ht
    · rw [htr] at ht
      obtain ⟨op, hd⟩ := hall t ht
      exact BurstDraw.not_covers_last g_args op t hd h2 hr.1
    · exact ht

/-- C2, evaluated: the command line `-d 0 -f 100 -i 16 -t 2 f` gives a configuration with
`is_last_chunk` enabled, two threads, a file of 100 bytes, transfers below 16 bytes and a
run time of zero; worker 0 completes having performed one transfer only, the access to the
last chunk, a read of 1 byte at offset 98; its range `[98, 99)` does not contain the index
99, and no transfer of any worker of this configuration, for any generator, answers of the
system and number of bursts, contains it. -/
theorem C2_last_byte_not_covered :
    mrw_args_retrieve 7 ex_argv_tail = some ex_tail_args ∧
    ex_tail_args.is_last_chunk = true ∧ 1 ≤ ex_tail_args.nb_threads ∧
    1 ≤ ex_tail_args.io_size_max ∧ ex_tail_args.io_size_max < ex_tail_args.file_size ∧
    ex_tail_args.runtime_s = 0 ∧
    (∃ r, io_stream ex_tail_args ex_rng ex_env 1 ex_targs = some r ∧
      r.status = Status.finished ∧ r.trace = [⟨Op.read, false, 3, 1, 98⟩]) ∧
    (∀ (g : Rng) (env : Env) (fuel : Nat) (targs : thread_args_t) (r : Proc),
      io_stream ex_tail_args g env fuel targs = some r →
      ∀ t ∈ r.trace, ¬ t.covers (ex_tail_args.file_size - 1)) :=
  ⟨rfl, by decide, by decide, by decide, by decide, by decide,
    ⟨_, rfl, by decide, by decide⟩,
    fun g env fuel targs r h =>
      io_stream_never_covers_last ex_tail_args g env fuel targs r (by decide) (by decide)
        (by decide) h⟩


/-! ### Exact transfer or fatal error -/

/-- The function `mrw_file_open_internal` on a positive answer of `open`: it makes one `open`
call with the flags `arg_flag | O_CREAT`, and `O_DIRECT` when the cache is bypassed, and
returns the descriptor. -/
theorem mrw_file_open_internal_pos (g_args : mrw_args_t) (sys_open : Nat → Int)
    (arg_flag : Nat)
    (h : 0 < sys_open (if g_args.is_cache_bypass then arg_flag ||| O_CREAT ||| O_DIRECT
      else arg_flag ||| O_CREAT)) :
    mrw_file_open_internal g_args sys_open arg_flag =
      { called := some (if g_args.is_cache_bypass then arg_flag ||| O_CREAT ||| O_DIRECT
          else arg_flag ||| O_CREAT),
        out := Ret.ret (sys_open (if g_args.is_cache_bypass then
          arg_flag ||| O_CREAT ||| O_DIRECT else arg_flag ||| O_CREAT)) } := by
  unfold mrw_file_open_internal
  simp only
  rw [if_neg (by omega)]

/-- The function `mrw_file_open_internal` on an answer of `open` that is zero or negative:
the process is ended by `exit(1)`. -/
theorem mrw_file_open_internal_nonpos (g_args : mrw_args_t) (sys_open : Nat → Int)
    (arg_flag : Nat)
    (h : sys_open (if g_args.is_cache_bypass then arg_flag ||| O_CREAT ||| O_DIRECT
      else arg_flag ||| O_CREAT) ≤ 0) :
    (mrw_file_open_internal g_args sys_open arg_flag).out =
      Ret.exit 1 (Diag.open_failed g_args.file_path) := by
  unfold mrw_file_open_internal
  simp only
  rw [if_pos h]

/-- C8, evaluated: the command line `-p 3 f` is accepted by the parser and gives the I/O
type 3; with it `mrw_file_open` makes no `open` call and returns `-1` to its caller, whatever
`open` would answer, without ending the process; and when `open` succeeds with descriptor 0,
`mrw_file_open` on the default I/O type ends the process with `exit(1)`. -/
theorem C8_open_neither_descriptor_nor_abort :
    mrw_args_retrieve 1 ex_argv_p3 = some ex_p3_args ∧ ex_p3_args.io_type = 3 ∧
    (∀ sys_open : Nat → Int,
      mrw_file_open ex_p3_args sys_open = { called := none, out := Ret.ret (-1) }) ∧
    mrw_args_retrieve 1 ex_argv_plain = some ex_plain_args ∧
    mrw_file_open ex_plain_args ex_env_fd0.sys_open =
      { called := some 66, out := Ret.exit 1 (Diag.open_failed "f") } := by
  refine ⟨rfl, rfl, fun sys_open => ?_, rfl, by decide⟩
  simp [mrw_file_open, ex_p3_args, mrw_args_default, MRW_READ, MRW_WRITE, MRW_RW]


/-! ### Burst homogeneity -/

/-- The direction of a burst and the seed after the decision, by cases on the configured
I/O type. -/
theorem burst_type_cases (g_args : mrw_args_t) (g : Rng) (p : Proc) :
    (g_args.io_type ≠ MRW_RW →
      burst_op (burst_type g_args g p).1 =
        (if g_args.io_type = MRW_READ then Op.read else Op.write) ∧
      (burst_type g_args g p).2.targs.seed = p.targs.seed) ∧
    (g_args.io_type = MRW_RW →
      burst_op (burst_type g_args g p).1 =
        (if (rand_r g p.targs.seed).1 % 2 = 1 then Op.read else Op.write) ∧
      (burst_type g_args g p).2.targs.seed = (rand_r g p.targs.seed).2) := by
  constructor
  · intro h
    unfold burst_type
    rw [if_pos h]
    exact ⟨rfl, rfl⟩
  · intro h
    unfold burst_type
    rw [if_neg (by simpa using h)]
    refine ⟨?_, rfl⟩
    simp only [burst_op]
    have : (rand_r g p.targs.seed).1 % 2 = 0 ∨ (rand_r g p.targs.seed).1 % 2 = 1 := by omega
    rcases this with e | e <;> simp [e, MRW_READ, MRW_WRITE]

/-- C5, amended: for every configuration, generator, answers of the system and running state,
one call of `mrw_do_io_burst` issues at most `io_burst_count` transfers, all of the same kind:
reads if `io_type` is `MRW_READ` and writes if it is `MRW_WRITE`, with no draw spent on the
mode (the first size is the first draw), and for `MRW_RW` the kind that the parity of one
draw taken before the first transfer decides (odd: read), the first size being the second
draw.  When the call returns it has issued exactly `io_burst_count` transfers and taken two
draws per transfer after the decision; and it returns whenever
`1 <= io_size_max <= file_size`, the count is at most `INT_MAX` and every transfer is
exact. -/
theorem C5_burst_homogeneous (g_args : mrw_args_t) (g : Rng) (env : Env) (p : Proc)
    (hs : p.status = Status.running) :
    ∃ new, (mrw_do_io_burst g_args g env p).trace = p.trace ++ new ∧
      new.length ≤ g_args.io_burst_count ∧
      (∃ k, ∀ t ∈ new, t.op = k) ∧
      (g_args.io_type = MRW_READ → ∀ t ∈ new, t.op = Op.read) ∧
      (g_args.io_type = MRW_WRITE → ∀ t ∈ new, t.op = Op.write) ∧
      (g_args.io_type = MRW_RW → ∀ t ∈ new,
        t.op = (if (rand_r g p.targs.seed).1 % 2 = 1 then Op.read else Op.write)) ∧
      (g_args.io_type ≠ MRW_RW → ∀ t, new.head? = some t →
        t.size = (rand_r g p.targs.seed).1 % g_args.io_size_max) ∧
      (g_args.io_type = MRW_RW → ∀ t, new.head? = some t →
        t.size = (rand_r g (rand_r g p.targs.seed).2).1 % g_args.io_size_max) ∧
      ((mrw_do_io_burst g_args g env p).status = Status.running →
        new.length = g_args.io_burst_count ∧
        (mrw_do_io_burst g_args g env p).targs.seed =
          skip g ((if g_args.io_type = MRW_RW then 1 else 0) + 2 * g_args.io_burst_count)
            p.targs.seed) ∧
      (g_args.InRange → 1 ≤ g_args.io_size_max → g_args.io_size_max ≤ g_args.file_size →
        g_args.io_burst_count < 2147483648 → env.exact →
        (mrw_do_io_burst g_args g env p).status = Status.running) := by
  obtain ⟨new, htr, hlen, hall, hhead, hrun⟩ := mrw_do_io_burst_spec g_args g env p hs
  obtain ⟨hfix, hrw⟩ := burst_type_cases g_args g p
  refine ⟨new, htr, hlen, ⟨_, fun t ht => (hall t ht).1.1⟩, ?_, ?_, ?_, ?_, ?_, ?_, ?_⟩
  · intro h t ht
    have hne : g_args.io_type ≠ MRW_RW := by rw [h]; decide
    rw [(hall t ht).1.1, (hfix hne).1, if_pos h]
  · intro h t ht
    have hne : g_args.io_type ≠ MRW_RW := by rw [h]; decide
    have hnr : g_args.io_type ≠ MRW_READ := by rw [h]; decide
    rw [(hall t ht).1.1, (hfix hne).1, if_neg hnr]
  · intro h t ht
    rw [(hall t ht).1.1, (hrw h).1]
  · intro h t ht
    rw [hhead t ht, (hfix h).2]
  · intro h t ht
    rw [hhead t ht, (hrw h).2]
  · intro h
    obtain ⟨hl, _, hseed⟩ := hrun h
    refine ⟨hl, ?_⟩
    rw [hseed]
    by_cases hio : g_args.io_type = MRW_RW
    · rw [(hrw hio).2, if_pos hio, skip_add]
      rfl
    · rw [(hfix hio).2, if_neg hio, Nat.zero_add]
  · intro hr h1 h2 hc hx
    exact mrw_do_io_burst_running g_args g env p h1 h2 hr.1 hc hx hs

/-- Evaluation of C5 on the small configuration: the burst of worker 0 returns with three
transfers of one kind. -/
theorem C5_burst_homogeneous_witness :
    (Proc.spawn ex_targs).status = Status.running ∧
    ∃ new, (mrw_do_io_burst ex_args ex_rng ex_env (Proc.spawn ex_targs)).trace =
        (Proc.spawn ex_targs).trace ++ new ∧
      new.length = ex_args.io_burst_count ∧ (∃ k, ∀ t ∈ new, t.op = k) ∧
      (mrw_do_io_burst ex_args ex_rng ex_env (Proc.spawn ex_targs)).status =
        Status.running := by
  obtain ⟨new, h1, _, h3, _, _, _, _, _, h9, h10⟩ :=
    C5_burst_homogeneous ex_args ex_rng ex_env (Proc.spawn ex_targs) rfl
  have hrun := h10 (by decide) (by decide) (by decide) (by decide) (fun _ _ => rfl)
  exact ⟨rfl, new, h1, (h9 hrun).1, h3, hrun⟩

/-- C5 as stated fails for `io_size_max = 0`: the command line `-i 0 f` gives it, with
`io_burst_count = 65536`, and a burst called in the running worker 0 stops on the remainder
by zero of its first size draw, having issued no transfer. -/
theorem C5_counterexample_no_transfer :
    mrw_args_retrieve 7 ex_argv_i0 = some ex_i0_args ∧
    ex_i0_args.io_burst_count = 65536 ∧
    (Proc.spawn ex_targs).status = Status.running ∧
    (mrw_do_io_burst ex_i0_args ex_rng ex_env (Proc.spawn ex_targs)).trace = [] ∧
    (mrw_do_io_burst ex_i0_args ex_rng ex_env (Proc.spawn ex_targs)).status =
      Status.rem_by_zero :=
  ⟨rfl, rfl, rfl,
    (mrw_do_io_burst_zero ex_i0_args ex_rng ex_env (Proc.spawn ex_targs) rfl (by decide)
      rfl).2,
    (mrw_do_io_burst_zero ex_i0_args ex_rng ex_env (Proc.spawn ex_targs) rfl (by decide)
      rfl).1⟩


/-! ### Determinism of the timed loop -/

theorem Compat.symm (p1 p2 : Proc) (h : Compat p1 p2) : Compat p2 p1 := by
  rcases h with ⟨a, b, c, d⟩ | h | h
  · exact Or.inl ⟨b, a, c.symm, d.symm⟩
  · exact Or.inr (Or.inr h)
  · exact Or.inr (Or.inl h)

/-- A stopped worker stays compatible with a worker that goes on issuing transfers. -/
theorem Compat.of_stopped (p1 p2 p2n : Proc) (new : List Transfer)
    (hs : p1.status ≠ Status.running) (hp : p1.triples <+: p2.triples)
    (hn : p2n.trace = p2.trace ++ new) : Compat p1 p2n := by
  refine Or.inr (Or.inl ⟨hs, hp.trans ?_⟩)
  unfold Proc.triples
  rw [hn, List.map_append]
  exact List.prefix_append _ _

theorem mrw_io_triples (g_args : mrw_args_t) (env : Env) (op : Op) (bytes : Nat) (offset : Int)
    (p : Proc) :
    (mrw_io g_args env op bytes offset p).triples = p.triples ++ [(op, offset, bytes)] := by
  unfold Proc.triples
  rw [mrw_io_trace, List.map_append]
  rfl

/-- One round of a burst keeps two workers compatible when the configurations agree on
`io_size_max` and `file_size`. -/
theorem burst_io_compat (c1 c2 : mrw_args_t) (g : Rng) (e1 e2 : Env) (op : Op) (p1 p2 : Proc)
    (hmax : c1.io_size_max = c2.io_size_max) (hfs : c1.file_size = c2.file_size)
    (h : Compat p1 p2) : Compat (burst_io c1 g e1 op p1) (burst_io c2 g e2 op p2) := by
  have ext : ∀ (c : mrw_args_t) (e : Env) (p : Proc),
      ∃ new, (burst_io c g e op p).trace = p.trace ++ new := by
    intro c e p
    rcases burst_io_spec c g e op p with ⟨h1, _⟩ | ⟨_, t, h1, _⟩
    · exact ⟨[], by rw [h1, List.append_nil]⟩
    · exact ⟨[t], h1⟩
  rcases h with ⟨r1, r2, hseed, htr⟩ | ⟨hs, hp⟩ | ⟨hs, hp⟩
  · unfold burst_io
    rw [if_neg (by simpa using r1), if_neg (by simpa using r2), ← hseed, ← hmax, ← hfs]
    simp only
    cases c_rem (rand_r g p1.targs.seed).1 c1.io_size_max with
    | none =>
      exact Or.inr (Or.inl ⟨by simp [Proc.stop], by
        simp only [Proc.stop, Proc.setSeed, Proc.triples] at htr ⊢
        rw [htr]⟩)
    | some size =>
      simp only
      cases c_rem (rand_r g (rand_r g p1.targs.seed).2).1
          (toU64 ((c1.file_size : Int) - (size : Int))) with
      | none =>
        exact Or.inr (Or.inl ⟨by simp [Proc.stop], by
          simp only [Proc.stop, Proc.setSeed, Proc.triples] at htr ⊢
          rw [htr]⟩)
      | some off =>
        simp only
        have ht : (mrw_io c1 e1 op size (toS64 off)
            (p1.setSeed (rand_r g (rand_r g p1.targs.seed).2).2)).triples =
            (mrw_io c2 e2 op size (toS64 off)
              (p2.setSeed (rand_r g (rand_r g p1.targs.seed).2).2)).triples := by
          rw [mrw_io_triples, mrw_io_triples]
          simp only [Proc.setSeed, Proc.triples] at htr ⊢
          rw [htr]
        by_cases k1 : (mrw_io c1 e1 op size (toS64 off)
            (p1.setSeed (rand_r g (rand_r g p1.targs.seed).2).2)).status = Status.running
        · by_cases k2 : (mrw_io c2 e2 op size (toS64 off)
              (p2.setSeed (rand_r g (rand_r g p1.targs.seed).2).2)).status = Status.running
          · exact Or.inl ⟨k1, k2, by rw [mrw_io_targs, mrw_io_targs]; rfl, ht⟩
          · exact Or.inr (Or.inr ⟨k2, by rw [ht]⟩)
        · exact Or.inr (Or.inl ⟨k1, by rw [ht]⟩)
  · rw [burst_io_of_stopped _ _ _ _ _ hs]
    obtain ⟨new, hn⟩ := ext c2 e2 p2
    exact Compat.of_stopped p1 p2 _ new hs hp hn
  · rw [burst_io_of_stopped c2 _ _ _ _ hs]
    obtain ⟨new, hn⟩ := ext c1 e1 p1
    exact (Compat.of_stopped p2 p1 _ new hs hp hn).symm

theorem burst_loop_compat (c1 c2 : mrw_args_t) (g : Rng) (e1 e2 : Env) (op : Op) (n : Nat)
    (p1 p2 : Proc) (hmax : c1.io_size_max = c2.io_size_max)
    (hfs : c1.file_size = c2.file_size) (h : Compat p1 p2) :
    Compat (burst_loop c1 g e1 op n p1) (burst_loop c2 g e2 op n p2) := by
  induction n generalizing p1 p2 with
  | zero => exact h
  | succ n ih =>
    simp only [burst_loop]
    exact ih _ _ (burst_io_compat c1 c2 g e1 e2 op p1 p2 hmax hfs h)


theorem mrw_do_io_burst_ext (c : mrw_args_t) (g : Rng) (e : Env) (p : Proc) :
    ∃ new, (mrw_do_io_burst c g e p).trace = p.trace ++ new := by
  by_cases hs : p.status = Status.running
  · obtain ⟨new, h, _⟩ := mrw_do_io_burst_spec c g e p hs
    exact ⟨new, h⟩
  · exact ⟨[], by rw [mrw_do_io_burst_of_stopped _ _ _ _ hs, List.append_nil]⟩

theorem bursts_ext (c : mrw_args_t) (g : Rng) (e : Env) (n : Nat) (p : Proc) :
    ∃ new, (bursts c g e n p).trace = p.trace ++ new := by
  obtain ⟨new, h, _⟩ := bursts_spec c g e n p
  exact ⟨new, h⟩

/-- Stopping both workers, each if it is still running, keeps them compatible. -/
theorem Compat.stop_both (p1 p2 : Proc) (c : Prop) [Decidable c] (s : Status)
    (hs : s ≠ Status.running) (h : Compat p1 p2) :
    Compat (if c ∧ p1.status = Status.running then p1.stop s else p1)
      (if c ∧ p2.status = Status.running then p2.stop s else p2) := by
  by_cases hc : c
  · rcases h with ⟨r1, r2, _, htr⟩ | ⟨k, hp⟩ | ⟨k, hp⟩
    · rw [if_pos ⟨hc, r1⟩, if_pos ⟨hc, r2⟩]
      exact Or.inr (Or.inl ⟨hs, by
        simp only [Proc.stop, Proc.triples] at htr ⊢
        rw [htr]⟩)
    · have e1 : (if c ∧ p1.status = Status.running then p1.stop s else p1) = p1 :=
        if_neg (fun x => k x.2)
      rw [e1]
      refine Or.inr (Or.inl ⟨k, ?_⟩)
      split_ifs <;> exact hp
    · have e2 : (if c ∧ p2.status = Status.running then p2.stop s else p2) = p2 :=
        if_neg (fun x => k x.2)
      rw [e2]
      refine Or.inr (Or.inr ⟨k, ?_⟩)
      split_ifs <;> exact hp
  · rw [if_neg (fun x => hc x.1), if_neg (fun x => hc x.1)]
    exact h

/-- The decision on the kind of a burst is the same for two workers in step, and leaves them
in step. -/
theorem burst_type_instep (c1 c2 : mrw_args_t) (g : Rng) (p1 p2 : Proc)
    (htype : c1.io_type = c2.io_type) (h : InStep p1 p2) :
    (burst_type c1 g p1).1 = (burst_type c2 g p2).1 ∧
    InStep (burst_type c1 g p1).2 (burst_type c2 g p2).2 := by
  obtain ⟨r1, r2, hseed, htr⟩ := h
  unfold burst_type
  rw [← htype, ← hseed]
  split_ifs
  · exact ⟨rfl, r1, r2, hseed, htr⟩
  · exact ⟨rfl, r1, r2, rfl, htr⟩

/-- One burst keeps two workers compatible when the configurations agree on the I/O type,
`io_size_max`, `file_size` and `io_burst_count`. -/
theorem mrw_do_io_burst_compat (c1 c2 : mrw_args_t) (g : Rng) (e1 e2 : Env) (p1 p2 : Proc)
    (hc : SameDraws c1 c2) (h : Compat p1 p2) :
    Compat (mrw_do_io_burst c1 g e1 p1) (mrw_do_io_burst c2 g e2 p2) := by
  obtain ⟨_, htype, hmax, hfs, hcount⟩ := hc
  rcases h with hstep | ⟨hs, hp⟩ | ⟨hs, hp⟩
  · obtain ⟨hk, hstep2⟩ := burst_type_instep c1 c2 g p1 p2 htype hstep
    have hl := burst_loop_compat c1 c2 g e1 e2 (burst_op (burst_type c1 g p1).1)
      (min c1.io_burst_count 2147483648) _ _ hmax hfs (Or.inl hstep2)
    have hfin := Compat.stop_both _ _ (2147483648 ≤ c1.io_burst_count) Status.int_overflow
      (by simp) hl
    have n1 : ¬ (p1.status ≠ Status.running) := by simpa using hstep.1
    have n2 : ¬ (p2.status ≠ Status.running) := by simpa using hstep.2.1
    unfold mrw_do_io_burst
    rw [if_neg n1, if_neg n2]
    simp only
    rw [← hk, ← hcount]
    exact hfin
  · rw [mrw_do_io_burst_of_stopped _ _ _ _ hs]
    obtain ⟨new, hn⟩ := mrw_do_io_burst_ext c2 g e2 p2
    exact Compat.of_stopped p1 p2 _ new hs hp hn
  · rw [mrw_do_io_burst_of_stopped c2 _ _ _ hs]
    obtain ⟨new, hn⟩ := mrw_do_io_burst_ext c1 g e1 p1
    exact (Compat.of_stopped p2 p1 _ new hs hp hn).symm

theorem bursts_compat (c1 c2 : mrw_args_t) (g : Rng) (e1 e2 : Env) (n : Nat) (p1 p2 : Proc)
    (hc : SameDraws c1 c2) (h : Compat p1 p2) :
    Compat (bursts c1 g e1 n p1) (bursts c2 g e2 n p2) := by
  induction n generalizing p1 p2 with
  | zero => exact h
  | succ n ih =>
    simp only [bursts]
    exact ih _ _ (mrw_do_io_burst_compat c1 c2 g e1 e2 p1 p2 hc h)

theorem bursts_add (c : mrw_args_t) (g : Rng) (e : Env) (a b : Nat) (p : Proc) :
    bursts c g e (a + b) p = bursts c g e b (bursts c g e a p) := by
  induction a generalizing p with
  | zero => simp [bursts]
  | succ a ih =>
    have h : a + 1 + b = (a + b) + 1 := by omega
    rw [h]
    simp only [bursts]
    exact ih _

/-- Of two compatible workers, one of which runs further bursts, the triples of one are the
beginning of the triples of the other. -/
theorem Compat.prefix_after (c : mrw_args_t) (g : Rng) (e : Env) (m : Nat) (p1 p2 : Proc)
    (h : Compat p1 p2) :
    p1.triples <+: (bursts c g e m p2).triples ∨ (bursts c g e m p2).triples <+: p1.triples := by
  obtain ⟨new, hn⟩ := bursts_ext c g e m p2
  have hext : p2.triples <+: (bursts c g e m p2).triples := by
    unfold Proc.triples
    rw [hn, List.map_append]
    exact List.prefix_append _ _
  rcases h with ⟨_, _, _, htr⟩ | ⟨_, hp⟩ | ⟨hs, hp⟩
  · left; rw [htr]; exact hext
  · left; exact hp.trans hext
  · right; rw [bursts_of_stopped _ _ _ _ _ hs]; exact hp

/-- Two lists of which one is the beginning of the other agree on every common position. -/
theorem prefix_agree {α : Type} (a b : List α) (h : a <+: b ∨ b <+: a) (i : Nat)
    (h1 : i < a.length) (h2 : i < b.length) : a[i]? = b[i]? := by
  rcases h with ⟨t, ht⟩ | ⟨t, ht⟩
  · rw [← ht, List.getElem?_append_left h1]
  · rw [← ht, List.getElem?_append_left h2]


theorem io_stream_open_seed (c : mrw_args_t) (e : Env) (p : Proc) :
    (io_stream_open c e p).targs.seed = p.targs.seed := by
  unfold io_stream_open
  by_cases hs : p.status = Status.running
  · rw [if_neg (by simpa using hs)]
    cases (mrw_file_open c e.sys_open).out with
    | exit code m => rfl
    | ret fd =>
      cases c.is_mmap with
      | false => rfl
      | true => cases e.sys_mmap <;> rfl
  · rw [if_pos (by simpa using hs)]

/-- A worker that enters its timed loop running has the seed `first_seed + thread_id`
(32-bit unsigned) advanced by the one draw that fills the write buffer. -/
theorem io_stream_init_seed (c : mrw_args_t) (g : Rng) (e : Env) (targs : thread_args_t)
    (h : (io_stream_init c g e (Proc.spawn targs)).status = Status.running) :
    (io_stream_init c g e (Proc.spawn targs)).targs.seed =
      (rand_r g (toU32 ((c.first_seed : Int) + (targs.thread_id : Int)))).2 := by
  have hseed : ∀ p : Proc, (if c.is_multiple_fd then io_stream_open c e p else p).targs.seed =
      p.targs.seed := by
    intro p
    split_ifs
    · exact io_stream_open_seed c e p
    · rfl
  have key : ∀ p3 : Proc,
      (if p3.status ≠ Status.running then p3
        else if e.malloc_write = 0 then p3.stop Status.aborted
        else if e.malloc_read = 0 then p3.stop Status.aborted
        else Proc.setSeed
          { p3 with targs := { p3.targs with write_buf := e.malloc_write,
                                             read_buf := e.malloc_read } }
          (rand_r g p3.targs.seed).2).status = Status.running →
      (if p3.status ≠ Status.running then p3
        else if e.malloc_write = 0 then p3.stop Status.aborted
        else if e.malloc_read = 0 then p3.stop Status.aborted
        else Proc.setSeed
          { p3 with targs := { p3.targs with write_buf := e.malloc_write,
                                             read_buf := e.malloc_read } }
          (rand_r g p3.targs.seed).2).targs.seed = (rand_r g p3.targs.seed).2 := by
    intro p3 h
    split_ifs at h ⊢ with a b d
    · exact absurd h a
    · simp [Proc.stop] at h
    · simp [Proc.stop] at h
    · rfl
  have e0 : io_stream_init c g e (Proc.spawn targs) =
      (fun p3 : Proc =>
        if p3.status ≠ Status.running then p3
        else if e.malloc_write = 0 then p3.stop Status.aborted
        else if e.malloc_read = 0 then p3.stop Status.aborted
        else Proc.setSeed
          { p3 with targs := { p3.targs with write_buf := e.malloc_write,
                                             read_buf := e.malloc_read } }
          (rand_r g p3.targs.seed).2)
      (if c.is_multiple_fd then
        io_stream_open c e ((Proc.spawn targs).setSeed
          (toU32 ((c.first_seed : Int) + (targs.thread_id : Int))))
      else (Proc.spawn targs).setSeed
        (toU32 ((c.first_seed : Int) + (targs.thread_id : Int)))) := by
    unfold io_stream_init
    rw [if_neg (by simp [Proc.spawn])]
    rfl
  rw [e0] at h ⊢
  refine (key _ h).trans ?_
  rw [hseed]
  rfl

/-- Two workers with the same thread identifier, under configurations with the same base
seed, are compatible when they enter their timed loops. -/
theorem io_stream_init_compat (c1 c2 : mrw_args_t) (g : Rng) (e1 e2 : Env)
    (t1 t2 : thread_args_t) (hseed : c1.first_seed = c2.first_seed)
    (htid : t1.thread_id = t2.thread_id) :
    Compat (io_stream_init c1 g e1 (Proc.spawn t1)) (io_stream_init c2 g e2 (Proc.spawn t2)) := by
  have tr1 : (io_stream_init c1 g e1 (Proc.spawn t1)).triples = [] := by
    unfold Proc.triples; rw [io_stream_init_trace]; rfl
  have tr2 : (io_stream_init c2 g e2 (Proc.spawn t2)).triples = [] := by
    unfold Proc.triples; rw [io_stream_init_trace]; rfl
  by_cases k1 : (io_stream_init c1 g e1 (Proc.spawn t1)).status = Status.running
  · by_cases k2 : (io_stream_init c2 g e2 (Proc.spawn t2)).status = Status.running
    · refine Or.inl ⟨k1, k2, ?_, by rw [tr1, tr2]⟩
      rw [io_stream_init_seed c1 g e1 t1 k1, io_stream_init_seed c2 g e2 t2 k2, hseed, htid]
    · exact Or.inr (Or.inr ⟨k2, by rw [tr1, tr2]⟩)
  · exact Or.inr (Or.inl ⟨k1, by rw [tr1, tr2]⟩)

/-- The triples issued up to the end of the timed loop by two workers with the same thread
identifier, under configurations that agree on the five fields, with any answers of the
system and any numbers of bursts: one sequence is the beginning of the other. -/
theorem bursts_comparable (c1 c2 : mrw_args_t) (g : Rng) (e1 e2 : Env) (n1 n2 : Nat)
    (p1 p2 : Proc) (hc : SameDraws c1 c2) (h : Compat p1 p2) :
    (bursts c1 g e1 n1 p1).triples <+: (bursts c2 g e2 n2 p2).triples ∨
    (bursts c2 g e2 n2 p2).triples <+: (bursts c1 g e1 n1 p1).triples := by
  rcases Nat.le_total n1 n2 with hle | hle
  · obtain ⟨d, hd⟩ := Nat.exists_eq_add_of_le hle
    rw [hd, bursts_add]
    exact Compat.prefix_after c2 g e2 d _ _ (bursts_compat c1 c2 g e1 e2 n1 p1 p2 hc h)
  · obtain ⟨d, hd⟩ := Nat.exists_eq_add_of_le hle
    rw [hd, bursts_add]
    have hc2 : SameDraws c2 c1 := ⟨hc.1.symm, hc.2.1.symm, hc.2.2.1.symm, hc.2.2.2.1.symm,
      hc.2.2.2.2.symm⟩
    exact (Compat.prefix_after c1 g e1 d _ _
      (bursts_compat c2 c1 g e2 e1 n2 p2 p1 hc2 h.symm)).symm

/-- C4, amended: the sequence of `(mode, offset, size)` triples that a worker issues in its
timed loop is a function of only `first_seed`, the thread identifier, `io_type`,
`io_size_max`, `file_size`, `io_burst_count` and the number of bursts executed.  For any two
runs whose configurations agree on these fields, with the same thread identifier, any
answers of the system and of the clock: a worker that enters the loop running starts it from
the seed `first_seed + thread_id` advanced by the one draw for the write buffer byte; the
timed loop of each run is some number of bursts from there; the two sequences of triples
issued up to the end of the loop agree on every position up to the length of the shorter
one; and after the same number of bursts two workers that are both running have issued the
same triples. -/
theorem C4_timed_loop_deterministic (c1 c2 : mrw_args_t) (g : Rng) (e1 e2 : Env)
    (f1 f2 : Nat) (t1 t2 : thread_args_t) (q1 q2 : Proc) (hc : SameDraws c1 c2)
    (htid : t1.thread_id = t2.thread_id)
    (h1 : io_stream_timed c1 g e1 f1 t1 = some q1)
    (h2 : io_stream_timed c2 g e2 f2 t2 = some q2) :
    ((io_stream_init c1 g e1 (Proc.spawn t1)).status = Status.running →
      (io_stream_init c1 g e1 (Proc.spawn t1)).targs.seed =
        (rand_r g (toU32 ((c1.first_seed : Int) + (t1.thread_id : Int)))).2) ∧
    (∃ n1 n2, q1 = bursts c1 g e1 n1 (io_stream_init c1 g e1 (Proc.spawn t1)) ∧
      q2 = bursts c2 g e2 n2 (io_stream_init c2 g e2 (Proc.spawn t2))) ∧
    (∀ i, i < q1.triples.length → i < q2.triples.length → q1.triples[i]? = q2.triples[i]?) ∧
    (∀ n, (bursts c1 g e1 n (io_stream_init c1 g e1 (Proc.spawn t1))).status = Status.running →
      (bursts c2 g e2 n (io_stream_init c2 g e2 (Proc.spawn t2))).status = Status.running →
      (bursts c1 g e1 n (io_stream_init c1 g e1 (Proc.spawn t1))).triples =
        (bursts c2 g e2 n (io_stream_init c2 g e2 (Proc.spawn t2))).triples) := by
  have hinit := io_stream_init_compat c1 c2 g e1 e2 t1 t2 hc.1 htid
  unfold io_stream_timed at h1 h2
  obtain ⟨n1, hn1⟩ := io_stream_loop_eq_bursts _ _ _ _ _ _ _ _ h1
  obtain ⟨n2, hn2⟩ := io_stream_loop_eq_bursts _ _ _ _ _ _ _ _ h2
  refine ⟨io_stream_init_seed c1 g e1 t1, ⟨n1, n2, hn1, hn2⟩, fun i hi1 hi2 => ?_,
    fun n r1 r2 => ?_⟩
  · subst hn1 hn2
    exact prefix_agree _ _ (bursts_comparable c1 c2 g e1 e2 n1 n2 _ _ hc hinit) i hi1 hi2
  · rcases bursts_compat c1 c2 g e1 e2 n _ _ hc hinit with ⟨_, _, _, htr⟩ | ⟨k, _⟩ | ⟨k, _⟩
    · exact htr
    · exact absurd r1 k
    · exact absurd r2 k


/-- Evaluation of C4 at two runs of worker 0 that differ in the access path, in the clock and
in the number of bursts (one and two): the triples agree on the common positions. -/
theorem C4_timed_loop_deterministic_witness :
    SameDraws ex_args ex_mmap_args ∧
    (bursts ex_args ex_rng ex_env_slow 1
      (io_stream_init ex_args ex_rng ex_env_slow (Proc.spawn ex_targs))).triples.length = 3 ∧
    (bursts ex_mmap_args ex_rng ex_env_slower 2
      (io_stream_init ex_mmap_args ex_rng ex_env_slower (Proc.spawn ex_targs))).triples.length
        = 6 ∧
    ∀ i,
      i < (bursts ex_args ex_rng ex_env_slow 1
        (io_stream_init ex_args ex_rng ex_env_slow (Proc.spawn ex_targs))).triples.length →
      i < (bursts ex_mmap_args ex_rng ex_env_slower 2
        (io_stream_init ex_mmap_args ex_rng ex_env_slower
          (Proc.spawn ex_targs))).triples.length →
      (bursts ex_args ex_rng ex_env_slow 1
        (io_stream_init ex_args ex_rng ex_env_slow (Proc.spawn ex_targs))).triples[i]? =
      (bursts ex_mmap_args ex_rng ex_env_slower 2
        (io_stream_init ex_mmap_args ex_rng ex_env_slower (Proc.spawn ex_targs))).triples[i]? :=
  ⟨by decide, by decide, by decide,
    (C4_timed_loop_deterministic ex_args ex_mmap_args ex_rng ex_env_slow ex_env_slower 2 3
      ex_targs ex_targs _ _ (by decide) rfl (by decide) (by decide)).2.2.1⟩

/-- C4 as stated fails for the whole sequence a worker issues: two runs of worker 0 under the
same configuration (reads only, `is_last_chunk` enabled), one whose clock ends the timed loop
before the first burst and one whose clock lets one burst through, both complete, and their
sequences of triples differ at position 0, where the first has its access to the last chunk
and the second the first transfer of its burst. -/
theorem C4_counterexample_last_chunk :
    ∃ r1 r2, io_stream ex_read_args ex_rng ex_env 1 ex_targs = some r1 ∧
      io_stream ex_read_args ex_rng ex_env_slow 2 ex_targs = some r2 ∧
      r1.status = Status.finished ∧ r2.status = Status.finished ∧
      r1.triples = [(Op.read, 98, 1)] ∧
      r2.triples = [(Op.read, 34, 1), (Op.read, 54, 11), (Op.read, 7, 5), (Op.read, 84, 15)] ∧
      ¬ (∀ i, i < r1.triples.length → i < r2.triples.length →
        r1.triples[i]? = r2.triples[i]?) := by
  refine ⟨_, _, rfl, rfl, by decide, by decide, by decide, by decide, fun h => ?_⟩
  exact absurd (h 0 (by decide) (by decide)) (by decide)

/-! ### The main thread -/

end MultiRW
